import Mathlib

/-!
ShaderWorkshop: the buffer-slot lifecycle of `shaderworkshop.cpp`.

A shallow embedding of the `ShaderWorkshop` widget: its tab widget (the active
ordering), its combo box (the availability pool behind the "Add buffer"
placeholder), the two maps `pages` and `pageIndices` (the registry), the
`imageEffectCreated` flag, and the calls it makes on the render engine.

Handlers return `Option`: `none` stands for a failed `Q_ASSERT` or a
dereferenced null page pointer, after which the program is gone.
-/

/-! ## Qt containers and widgets, as far as the handlers use them -/

/-- Assignment `map[k] = v` on a `QMap`/`QHash`: replaces the value of an existing key, adds the
key otherwise. -/
def QMap.insert {K V : Type} [DecidableEq K] : List (K × V) → K → V → List (K × V)
  | [], k, v => [(k, v)]
  | (k0, v0) :: rest, k, v =>
    if k0 = k then (k, v) :: rest else (k0, v0) :: QMap.insert rest k v

/-- Lookup in a map: `some v` when `contains(k)` holds (and then `value(k)` is `v`), `none` when
the key is absent. -/
def QMap.find {K V : Type} [DecidableEq K] : List (K × V) → K → Option V
  | [], _ => none
  | (k0, v0) :: rest, k => if k0 = k then some v0 else QMap.find rest k

/-- The items of a `QComboBox`, in display order. `addItem` appends. -/
def QComboBox.addItem (items : List String) (text : String) : List String :=
  items ++ [text]

/-- The index of the first item equal to `text`, or `-1`: `QComboBox::findText`. -/
def QComboBox.findText (items : List String) (text : String) : Int :=
  if text ∈ items then (items.indexOf text : Int) else -1

/-- Removes the item at `index`; does nothing when the index is out of range:
`QComboBox::removeItem`. -/
def QComboBox.removeItem (items : List String) (index : Int) : List String :=
  if 0 ≤ index ∧ index < items.length then items.eraseIdx index.toNat else items

/-- A `QTabWidget`: the tabs in display order, each a page widget (a pointer) with its label, and
the index of the current tab (`-1` when there is none). -/
structure QTabWidget where
  tabs : List (Nat × String)
  currentIndex : Int
deriving DecidableEq, Repr

namespace QTabWidget

/-- Number of tabs: `QTabWidget::count`. -/
def count (t : QTabWidget) : Int := t.tabs.length

/-- The tab at a position, if the position is valid. -/
def tabAt (t : QTabWidget) (index : Int) : Option (Nat × String) :=
  if index < 0 then none else t.tabs[index.toNat]?

/-- Removes the tab at `index`, nothing when out of range. When the current tab is removed the tab
to its right becomes current (the last one if there is none to the right):
`QTabWidget::removeTab` with the default `SelectRightTab`. -/
def removeTab (t : QTabWidget) (index : Int) : QTabWidget :=
  if 0 ≤ index ∧ index < t.count then
    let tabs := t.tabs.eraseIdx index.toNat
    let cur : Int :=
      if index = t.currentIndex then
        (if tabs.length = 0 then -1
         else if (tabs.length : Int) ≤ index then (tabs.length : Int) - 1 else index)
      else if index < t.currentIndex then t.currentIndex - 1
      else t.currentIndex
    ⟨tabs, cur⟩
  else t

/-- Position of the tab of a page, `-1` when the page has no tab: `QTabWidget::indexOf`. -/
def indexOf (t : QTabWidget) (page : Nat) : Int :=
  if page ∈ t.tabs.map Prod.fst then ((t.tabs.map Prod.fst).indexOf page : Int) else -1

/-- Inserts a tab at `index` (appends when out of range) and returns the position it got:
`QTabWidget::insertTab`. A page that already has a tab is taken out first: the page goes into
the widget stack of the tab widget with `QStackedWidget::insertWidget`, which removes a widget
it already holds, and the tab widget answers the removal by removing the tab; the index is then
bounded by the number of tabs left. The first tab becomes current; a tab inserted at or before
the current one shifts the current index. -/
def insertTab (t : QTabWidget) (index : Int) (page : Nat) (label : String) : QTabWidget × Int :=
  let t0 := t.removeTab (t.indexOf page)
  let i : Nat := if index < 0 ∨ t0.count < index then t0.tabs.length else index.toNat
  let tabs := t0.tabs.take i ++ [(page, label)] ++ t0.tabs.drop i
  let cur : Int :=
    if t0.tabs.length = 0 then i
    else if (i : Int) ≤ t0.currentIndex then t0.currentIndex + 1 else t0.currentIndex
  (⟨tabs, cur⟩, i)

/-- Label of the tab at `index`, the empty string when out of range: `QTabWidget::tabText`. -/
def tabText (t : QTabWidget) (index : Int) : String :=
  match t.tabAt index with
  | some (_, label) => label
  | none => ""

/-- Page of the current tab, `none` (a null pointer) when there is no current tab:
`QTabWidget::currentWidget`. -/
def currentWidget (t : QTabWidget) : Option Nat :=
  (t.tabAt t.currentIndex).map Prod.fst

/-- The user selects a tab: `QTabWidget::setCurrentIndex`, nothing when out of range. -/
def setCurrentIndex (t : QTabWidget) (index : Int) : QTabWidget :=
  if 0 ≤ index ∧ index < t.count then ⟨t.tabs, index⟩ else t

end QTabWidget

/-! ## The collaborators -/

/-- Modelled from the spec: the `EditorPage` class (`editorpage.h` is not among the sources). The
spec gives the editor collaborator a source text that is read and set, and a log that is cleared
and appended to. -/
structure EditorPage where
  shaderSource : String
  shaderLog : List String
deriving DecidableEq, Repr

namespace EditorPage

/-- Modelled from the spec: a page as its constructor leaves it, with no source and no log. -/
def new : EditorPage := ⟨"", []⟩

/-- Modelled from the spec: `setSource(slot, text)`. -/
def setShaderSource (p : EditorPage) (source : String) : EditorPage :=
  { p with shaderSource := source }

/-- Modelled from the spec: `clearLog(slot)`. -/
def clearShaderLog (p : EditorPage) : EditorPage :=
  { p with shaderLog := [] }

/-- Modelled from the spec: `appendLog(slot, text)`, the log forwarded for display. -/
def shaderLogUpdated (p : EditorPage) (log : String) : EditorPage :=
  { p with shaderLog := p.shaderLog ++ [log] }

end EditorPage

/-- What the render engine answers (`renderer.h` is not among the sources, so its answers are
parameters): the default fragment shader, and the log of a recompilation, which for a
deterministic engine is a function of the effect index and the source. -/
structure Renderer where
  defaultFragmentShader : String
  recompileEffectShader : Nat → String → String

/-- A call made on the render engine. -/
inductive RendererCall where
  | createEffect (index : Nat)
  | deleteEffect (index : Nat)
  | recompileEffectShader (index : Nat) (source : String)
  | defaultFragmentShader
deriving DecidableEq, Repr

/-! ## The widget -/

/-- The members of `ShaderWorkshop`, the `EditorPage` objects it allocated (`heap`, a page pointer
is a position in it) and the calls made on the renderer so far, oldest first. The current
selection of the combo box is not kept: no handler reads it. -/
structure ShaderWorkshop where
  tab : QTabWidget
  comboBox : List String
  pages : List (String × Nat)
  pageIndices : List (Nat × Nat)
  imagePage : Option Nat
  defaultItemName : String
  maxBufferPages : Nat
  imagePageIndex : Nat
  imageEffectCreated : Bool
  heap : List EditorPage
  calls : List RendererCall
deriving DecidableEq, Repr

namespace ShaderWorkshop

/-- Records a call on the renderer. -/
def call (s : ShaderWorkshop) (c : RendererCall) : ShaderWorkshop :=
  { s with calls := s.calls ++ [c] }

/-- Runs a method of the page behind a pointer; `none` for a pointer to no page. -/
def updatePage (s : ShaderWorkshop) (page : Nat) (f : EditorPage → EditorPage) :
    Option ShaderWorkshop :=
  match s.heap[page]? with
  | none => none
  | some e => some { s with heap := s.heap.set page (f e) }

/-- `ShaderWorkshop::pageIndex`: the index registered for a page; the `Q_ASSERT` fails for a page
that is not registered. -/
def pageIndex (s : ShaderWorkshop) (page : Nat) : Option Nat :=
  QMap.find s.pageIndices page

/-- `ShaderWorkshop::currentPage`. -/
def currentPage (s : ShaderWorkshop) : Option Nat :=
  s.tab.currentWidget

/-- `ShaderWorkshop::paintEvent`: creates the effect of the image page on the first call. -/
def paintEvent (s : ShaderWorkshop) : ShaderWorkshop :=
  if !s.imageEffectCreated then
    { call s (.createEffect s.imagePageIndex) with imageEffectCreated := true }
  else s

/-- `ShaderWorkshop::newBufferRequested`: nothing for the placeholder; otherwise the assertion
that the name is registered, the reset of the page, the new tab at the end, the removal of the
name from the combo box and the creation of the effect. The call `setCurrentText` that follows
the removal only moves the selection of the combo box, which is not kept. -/
def newBufferRequested (r : Renderer) (name : String) (s : ShaderWorkshop) :
    Option ShaderWorkshop :=
  if name = s.defaultItemName then some s
  else
    match QMap.find s.pages name with
    | none => none
    | some page => do
      let s1 := call s .defaultFragmentShader
      let s2 ← updatePage s1 page (fun e => e.setShaderSource r.defaultFragmentShader)
      let s3 ← updatePage s2 page EditorPage.clearShaderLog
      let s4 := { s3 with tab := (s3.tab.insertTab s3.tab.count page name).1 }
      let s5 := { s4 with
        comboBox := QComboBox.removeItem s4.comboBox (QComboBox.findText s4.comboBox name) }
      let index ← pageIndex s5 page
      some (call s5 (.createEffect index))

/-- `ShaderWorkshop::bufferCloseRequested`: the assertion that the label of the tab is a
registered name, the removal of the tab, the return of the name to the combo box and the deletion
of the effect. There is no test for the image tab. -/
def bufferCloseRequested (tabIndex : Int) (s : ShaderWorkshop) : Option ShaderWorkshop :=
  let name := s.tab.tabText tabIndex
  match QMap.find s.pages name with
  | none => none
  | some page => do
    let s1 := { s with tab := s.tab.removeTab tabIndex }
    let s2 := { s1 with comboBox := QComboBox.addItem s1.comboBox name }
    let index ← pageIndex s2 page
    some (call s2 (.deleteEffect index))

/-- `ShaderWorkshop::on_actionRecompile_Shader_triggered`: recompiles the source of the current
page under the index of that page and hands the log to the page. -/
def on_actionRecompile_Shader_triggered (r : Renderer) (s : ShaderWorkshop) :
    Option ShaderWorkshop := do
  let page ← currentPage s
  let e ← s.heap[page]?
  let source := e.shaderSource
  let index ← pageIndex s page
  let log := r.recompileEffectShader index source
  let s1 := call s (.recompileEffectShader index source)
  updatePage s1 page (fun p => p.shaderLogUpdated log)

/-- `ShaderWorkshop::bufferName`: `'A' + index` is narrowed to a `char` and read by
`QString::arg(char)` as a Latin-1 character. -/
def bufferName (index : Nat) : String :=
  "Buffer " ++ String.singleton (Char.ofNat ((65 + index) % 256))

/-- `ShaderWorkshop::createPage`: allocates a page and registers it in both maps. -/
def createPage (name : String) (index : Nat) (s : ShaderWorkshop) : ShaderWorkshop × Nat :=
  let page := s.heap.length
  ({ s with
      heap := s.heap ++ [EditorPage.new]
      pages := QMap.insert s.pages name page
      pageIndices := QMap.insert s.pageIndices page index }, page)

/-- `ShaderWorkshop::createImagePage`. The label `tr("Image")` is taken untranslated; the close
button the function takes off the new tab is presentation and is not kept (see `ordinaryAt`). -/
def createImagePage (r : Renderer) (s : ShaderWorkshop) : Option ShaderWorkshop :=
  let created := createPage "Image" s.imagePageIndex s
  let s1 := { created.1 with imagePage := some created.2 }
  let s2 := call s1 .defaultFragmentShader
  match updatePage s2 created.2 (fun e => e.setShaderSource r.defaultFragmentShader) with
  | none => none
  | some s3 => some { s3 with tab := (s3.tab.insertTab s3.tab.count created.2 "Image").1 }

/-- `ShaderWorkshop::createPages`. -/
def createPages (data : List (Nat × String)) (s : ShaderWorkshop) : ShaderWorkshop :=
  data.foldl
    (fun st item =>
      let st1 := (createPage item.2 item.1 st).1
      { st1 with comboBox := QComboBox.addItem st1.comboBox item.2 })
    s

/-- The list the loop of `setupWidgets` builds: for `i = 1 .. maxBufferPages - 1` the pair of
`imagePageIndex + i` and `bufferName (i - 1)`. -/
def pagesData (s : ShaderWorkshop) : List (Nat × String) :=
  (List.range (s.maxBufferPages - 1)).map (fun k => (s.imagePageIndex + 1 + k, bufferName k))

/-- `ShaderWorkshop::setupWidgets`; its `Q_ASSERT` wants the tab widget empty. -/
def setupWidgets (r : Renderer) (s : ShaderWorkshop) : Option ShaderWorkshop :=
  if s.tab.count ≠ 0 then none
  else
    let s1 := { s with comboBox := QComboBox.addItem s.comboBox s.defaultItemName }
    match createImagePage r s1 with
    | none => none
    | some s2 => some (createPages (pagesData s1) s2)

/-- The constructor, for a given `maxBufferPages`: the member initialisers, then `setupWidgets` on
the widgets of a form that holds no tab and no combo-box item yet. -/
def construct (r : Renderer) (maxBufferPages : Nat) : Option ShaderWorkshop :=
  setupWidgets r
    { tab := ⟨[], -1⟩
      comboBox := []
      pages := []
      pageIndices := []
      imagePage := none
      defaultItemName := "Add buffer"
      maxBufferPages := maxBufferPages
      imagePageIndex := 0
      imageEffectCreated := false
      heap := []
      calls := [] }

/-- The state the program starts in: the constructor sets `maxBufferPages(5)`, and the assertion
of `setupWidgets` holds on the empty form. -/
def init (r : Renderer) : ShaderWorkshop :=
  (construct r 5).get rfl

/-! ## What the claims observe -/

/-- The active ordering: the labels of the tabs, in display order. -/
def activeOrdering (s : ShaderWorkshop) : List String :=
  s.tab.tabs.map Prod.snd

/-- The availability pool: the combo-box entries other than the placeholder, in display order. -/
def availableNames (s : ShaderWorkshop) : List String :=
  s.comboBox.filter (fun n => decide (n ≠ s.defaultItemName))

/-- The indices registered for the pages of the tabs, in display order (`QMap::value` gives `0`
for a page that is not registered). -/
def activeIndices (s : ShaderWorkshop) : List Nat :=
  s.tab.tabs.map (fun t => (pageIndex s t.1).getD 0)

/-- The effect of one renderer call on the live effects: `createEffect` adds its index,
`deleteEffect` takes one earlier creation of its index away. -/
def liveStep (live : List Nat) : RendererCall → List Nat
  | .createEffect i => live ++ [i]
  | .deleteEffect i => live.erase i
  | _ => live

/-- The live effects after a sequence of calls: the indices of the `createEffect` calls not yet
matched by a `deleteEffect` call on the same index. -/
def liveEffects (calls : List RendererCall) : List Nat :=
  calls.foldl liveStep []

/-- The calls among `calls` that create an effect. -/
def createCalls (calls : List RendererCall) : List RendererCall :=
  calls.filter (fun c => match c with
    | .createEffect _ => true
    | _ => false)

/-- The calls among `calls` that delete an effect. -/
def deleteCalls (calls : List RendererCall) : List RendererCall :=
  calls.filter (fun c => match c with
    | .deleteEffect _ => true
    | _ => false)

/-- The tab at a position shows an ordinary slot: there is a tab there and its page is not the
image page (the one tab `createImagePage` leaves without a close button). -/
def ordinaryAt (s : ShaderWorkshop) (index : Int) : Bool :=
  match s.tab.tabAt index with
  | some t => decide (some t.1 ≠ s.imagePage)
  | none => false

/-- The user types in the editor of the current page, or opens a file into it. -/
def sourceEdited (text : String) (s : ShaderWorkshop) : Option ShaderWorkshop :=
  match currentPage s with
  | none => none
  | some page => updatePage s page (fun e => e.setShaderSource text)

/-! ## Reachable states -/

/-- One event the user interface can deliver: a paint event, the activation of a combo-box entry
(the placeholder included), a close request on the tab of an ordinary slot, the recompile action,
a change of the current tab, an edit of the current source. -/
inductive Step (r : Renderer) : ShaderWorkshop → ShaderWorkshop → Prop where
  | paint (s : ShaderWorkshop) : Step r s (paintEvent s)
  | activated (s t : ShaderWorkshop) (name : String) :
      name ∈ s.comboBox → newBufferRequested r name s = some t → Step r s t
  | tabCloseRequested (s t : ShaderWorkshop) (index : Int) :
      ordinaryAt s index = true → bufferCloseRequested index s = some t → Step r s t
  | recompile (s t : ShaderWorkshop) :
      on_actionRecompile_Shader_triggered r s = some t → Step r s t
  | currentChanged (s : ShaderWorkshop) (index : Int) :
      Step r s { s with tab := s.tab.setCurrentIndex index }
  | edited (s t : ShaderWorkshop) (text : String) :
      sourceEdited text s = some t → Step r s t

/-- The states reachable from the initial state by events of the user interface. -/
inductive Reachable (r : Renderer) : ShaderWorkshop → Prop where
  | init : Reachable r (init r)
  | step (s t : ShaderWorkshop) : Reachable r s → Step r s t → Reachable r t

/-- As `Step`, but `newBufferRequested` may be called on the name of any ordinary slot, offered in
the combo box or not. -/
inductive OrdinaryStep (r : Renderer) : ShaderWorkshop → ShaderWorkshop → Prop where
  | paint (s : ShaderWorkshop) : OrdinaryStep r s (paintEvent s)
  | activated (s t : ShaderWorkshop) (name : String) :
      name ≠ "Image" → newBufferRequested r name s = some t → OrdinaryStep r s t
  | tabCloseRequested (s t : ShaderWorkshop) (index : Int) :
      ordinaryAt s index = true → bufferCloseRequested index s = some t → OrdinaryStep r s t
  | recompile (s t : ShaderWorkshop) :
      on_actionRecompile_Shader_triggered r s = some t → OrdinaryStep r s t
  | currentChanged (s : ShaderWorkshop) (index : Int) :
      OrdinaryStep r s { s with tab := s.tab.setCurrentIndex index }
  | edited (s t : ShaderWorkshop) (text : String) :
      sourceEdited text s = some t → OrdinaryStep r s t

/-- The states reachable from the initial state by calls on ordinary slots. -/
inductive OrdinaryReachable (r : Renderer) : ShaderWorkshop → Prop where
  | init : OrdinaryReachable r (init r)
  | step (s t : ShaderWorkshop) :
      OrdinaryReachable r s → OrdinaryStep r s t → OrdinaryReachable r t

/-- A renderer to run the scenarios with. -/
def demoRenderer : Renderer :=
  ⟨"void main()", fun index source => "compiled " ++ toString index ++ ": " ++ source⟩

/-! ## The registry of the initial state -/

/-- The slots the constructor registers for `maxBufferPages = 5`: page pointer and name. -/
def slots : List (Nat × String) :=
  [(0, "Image"), (1, "Buffer A"), (2, "Buffer B"), (3, "Buffer C"), (4, "Buffer D")]

/-- The ordinary slots among them. -/
def ordinarySlots : List (Nat × String) :=
  [(1, "Buffer A"), (2, "Buffer B"), (3, "Buffer C"), (4, "Buffer D")]

/-- The names of the ordinary slots, in the order the combo box first shows them. -/
def ordinaryNames : List String :=
  ["Buffer A", "Buffer B", "Buffer C", "Buffer D"]

/-- The members the handlers never assign keep the values the constructor gave them. -/
structure Frame (s : ShaderWorkshop) : Prop where
  pages_eq : s.pages = slots.map (fun t => (t.2, t.1))
  pageIndices_eq : s.pageIndices = slots.map (fun t => (t.1, t.1))
  imagePage_eq : s.imagePage = some 0
  defaultItemName_eq : s.defaultItemName = "Add buffer"
  maxBufferPages_eq : s.maxBufferPages = 5
  imagePageIndex_eq : s.imagePageIndex = 0
  heap_length : s.heap.length = 5

/-! ## Invariants, and the states the proofs name -/

/-- The image tab comes first and the tabs after it show ordinary slots (`rest`); the combo box
shows the placeholder first and names of ordinary slots after it (`pool`); the current tab
exists. -/
structure Shape (s : ShaderWorkshop) (rest : List (Nat × String)) (pool : List String) :
    Prop where
  frame : Frame s
  tabs_eq : s.tab.tabs = (0, "Image") :: rest
  rest_mem : ∀ t ∈ rest, t ∈ ordinarySlots
  comboBox_eq : s.comboBox = "Add buffer" :: pool
  pool_mem : ∀ n ∈ pool, n ∈ ordinaryNames
  current_nonneg : 0 ≤ s.tab.currentIndex
  current_lt : s.tab.currentIndex < s.tab.count

/-- Every ordinary name is in the pool or on a tab, once; the live effects are those of the tabs,
the image tab counted once `paintEvent` has created its effect. -/
structure Ledger (s : ShaderWorkshop) (rest : List (Nat × String)) (pool : List String) :
    Prop where
  names : (pool ++ rest.map Prod.snd).Perm ordinaryNames
  live : (liveEffects s.calls).Perm
    ((if s.imageEffectCreated = true then [0] else []) ++ rest.map Prod.fst)

/-- The indices the registry holds, name by name: each registered name is taken to its page by
`pages` and on to its index by `pageIndices`. -/
def registeredIndices (s : ShaderWorkshop) : List Nat :=
  s.pages.filterMap (fun e => pageIndex s e.2)

/-- The index registered for a name, if the name is registered. -/
def registeredIndex (s : ShaderWorkshop) (name : String) : Option Nat :=
  (QMap.find s.pages name).bind (pageIndex s)

/-- Name of the slot with a given index: the image page first, the buffers after it. -/
def slotName : Nat → String
  | 0 => "Image"
  | k + 1 => bufferName k

/-- The state of the constructor after `createImagePage` and `n` rounds of the loop of
`createPages`, written out. -/
def built (r : Renderer) (m n : Nat) : ShaderWorkshop :=
  { tab := ⟨[(0, "Image")], 0⟩
    comboBox := "Add buffer" :: (List.range n).map bufferName
    pages := (List.range (n + 1)).map (fun k => (slotName k, k))
    pageIndices := (List.range (n + 1)).map (fun k => (k, k))
    imagePage := some 0
    defaultItemName := "Add buffer"
    maxBufferPages := m
    imagePageIndex := 0
    imageEffectCreated := false
    heap := ⟨r.defaultFragmentShader, []⟩ :: List.replicate n EditorPage.new
    calls := [.defaultFragmentShader] }

/-- A state with the registry of the constructor and the given widgets, pages and calls. -/
def arranged (tabs : List (Nat × String)) (current : Int) (comboBox : List String)
    (created : Bool) (heap : List EditorPage) (calls : List RendererCall) : ShaderWorkshop :=
  { tab := ⟨tabs, current⟩
    comboBox := comboBox
    pages := [("Image", 0), ("Buffer A", 1), ("Buffer B", 2), ("Buffer C", 3), ("Buffer D", 4)]
    pageIndices := [(0, 0), (1, 1), (2, 2), (3, 3), (4, 4)]
    imagePage := some 0
    defaultItemName := "Add buffer"
    maxBufferPages := 5
    imagePageIndex := 0
    imageEffectCreated := created
    heap := heap
    calls := calls }

/-- The state of the demonstration: Buffer A was activated in the fresh state. -/
def demoState : ShaderWorkshop :=
  arranged [(0, "Image"), (1, "Buffer A")] 0
    ["Add buffer", "Buffer B", "Buffer C", "Buffer D"] false
    [⟨"void main()", []⟩, ⟨"void main()", []⟩, ⟨"", []⟩, ⟨"", []⟩, ⟨"", []⟩]
    [.defaultFragmentShader, .defaultFragmentShader, .createEffect 1]

/-- A later state of the demonstration: Buffer B was activated too, the tab of Buffer A selected,
its source edited and recompiled. -/
def busyState : ShaderWorkshop :=
  arranged [(0, "Image"), (1, "Buffer A"), (2, "Buffer B")] 1
    ["Add buffer", "Buffer C", "Buffer D"] false
    [⟨"void main()", []⟩, ⟨"edited", ["compiled 1: edited"]⟩, ⟨"void main()", []⟩, ⟨"", []⟩,
      ⟨"", []⟩]
    [.defaultFragmentShader, .defaultFragmentShader, .createEffect 1,
      .defaultFragmentShader, .createEffect 2, .recompileEffectShader 1 "edited"]

/-! ## The initial state -/

theorem init_eq (r : Renderer) :
    init r =
      { tab := ⟨[(0, "Image")], 0⟩
        comboBox := ["Add buffer", "Buffer A", "Buffer B", "Buffer C", "Buffer D"]
        pages := [("Image", 0), ("Buffer A", 1), ("Buffer B", 2), ("Buffer C", 3), ("Buffer D", 4)]
        pageIndices := [(0, 0), (1, 1), (2, 2), (3, 3), (4, 4)]
        imagePage := some 0
        defaultItemName := "Add buffer"
        maxBufferPages := 5
        imagePageIndex := 0
        imageEffectCreated := false
        heap := [⟨r.defaultFragmentShader, []⟩, ⟨"", []⟩, ⟨"", []⟩, ⟨"", []⟩, ⟨"", []⟩]
        calls := [.defaultFragmentShader] } := rfl

theorem frame_init (r : Renderer) : Frame (init r) := by
  rw [init_eq]
  constructor <;> rfl

theorem slots_spec :
    ∀ t ∈ slots, QMap.find (slots.map (fun t => (t.2, t.1))) t.2 = some t.1 ∧
      QMap.find (slots.map (fun t => (t.1, t.1))) t.1 = some t.1 ∧ t.1 < 5 ∧
      t.2 ≠ "Add buffer" := by
  decide

/-! ## The widgets, step by step -/

theorem removeItem_findText (items : List String) (text : String) :
    QComboBox.removeItem items (QComboBox.findText items text) = items.erase text := by
  unfold QComboBox.removeItem QComboBox.findText
  by_cases h : text ∈ items
  · have hlt : List.indexOf text items < items.length := List.indexOf_lt_length.mpr h
    simp [h, hlt]
  · simp [h, List.erase_of_not_mem h]

theorem insertTab_count (t : QTabWidget) (page : Nat) (label : String) :
    (t.insertTab t.count page label).1 =
      ⟨(t.removeTab (t.indexOf page)).tabs ++ [(page, label)],
        if (t.removeTab (t.indexOf page)).tabs.length = 0 then 0
        else if (t.removeTab (t.indexOf page)).count ≤ (t.removeTab (t.indexOf page)).currentIndex
          then (t.removeTab (t.indexOf page)).currentIndex + 1
          else (t.removeTab (t.indexOf page)).currentIndex⟩ := by
  have hle : (t.removeTab (t.indexOf page)).tabs.length ≤ t.tabs.length := by
    unfold QTabWidget.removeTab
    split
    · exact List.length_eraseIdx_le _ _
    · exact le_refl _
  have hi : (if t.count < 0 ∨ (t.removeTab (t.indexOf page)).count < t.count
      then (t.removeTab (t.indexOf page)).tabs.length else t.count.toNat) =
      (t.removeTab (t.indexOf page)).tabs.length := by
    unfold QTabWidget.count
    split
    · rfl
    · rename_i hn
      omega
  unfold QTabWidget.insertTab
  simp only [hi]
  by_cases h : (t.removeTab (t.indexOf page)).tabs.length = 0
  · have h0 : (t.removeTab (t.indexOf page)).tabs = [] := List.length_eq_zero.mp h
    simp [h0]
  · simp [h, QTabWidget.count]

theorem removeTab_absent (t : QTabWidget) (page : Nat) (h : page ∉ t.tabs.map Prod.fst) :
    t.removeTab (t.indexOf page) = t := by
  unfold QTabWidget.indexOf
  rw [if_neg h]
  unfold QTabWidget.removeTab
  simp

theorem eraseIdx_indexOf_fst (l : List (Nat × String)) (p : Nat) (name : String)
    (h : ∀ e ∈ l, e.1 = p → e = (p, name)) :
    l.eraseIdx ((l.map Prod.fst).indexOf p) = l.erase (p, name) := by
  induction l with
  | nil => rfl
  | cons x rest ih =>
    by_cases hx : x.1 = p
    · have hxe : x = (p, name) := h x (List.mem_cons_self _ _) hx
      subst hxe
      simp
    · have hne : x ≠ (p, name) := fun e => hx (by rw [e])
      have hne1 : (x == (p, name)) = false := by simpa using hne
      rw [List.map_cons, List.indexOf_cons_ne _ hx, List.eraseIdx_cons_succ, List.erase_cons,
        hne1, ih (fun e he => h e (List.mem_cons_of_mem _ he))]
      rfl

/-- A page that has a tab loses it, a page without a tab changes nothing: the tabs after the
removal that `insertTab` starts with. -/
theorem removeTab_indexOf_tabs (t : QTabWidget) (p : Nat) (name : String)
    (h : ∀ e ∈ t.tabs, e.1 = p → e = (p, name)) :
    (t.removeTab (t.indexOf p)).tabs = t.tabs.erase (p, name) := by
  by_cases hm : p ∈ t.tabs.map Prod.fst
  · have hlt : (t.tabs.map Prod.fst).indexOf p < t.tabs.length := by
      have := List.indexOf_lt_length.mpr hm
      simpa using this
    unfold QTabWidget.indexOf
    rw [if_pos hm]
    unfold QTabWidget.removeTab QTabWidget.count
    rw [if_pos ⟨by omega, by omega⟩]
    simp only [Int.toNat_ofNat]
    exact eraseIdx_indexOf_fst t.tabs p name h
  · rw [removeTab_absent t p hm, List.erase_of_not_mem]
    intro hmem
    exact hm (List.mem_map.mpr ⟨(p, name), hmem, rfl⟩)

theorem removeTab_current (t : QTabWidget) (index : Int) (h0 : 0 ≤ t.currentIndex)
    (h1 : t.currentIndex < t.count) (hne : (t.removeTab index).tabs ≠ []) :
    0 ≤ (t.removeTab index).currentIndex ∧
      (t.removeTab index).currentIndex < (t.removeTab index).count := by
  have hlen : (t.removeTab index).tabs.length ≠ 0 := fun e => hne (List.length_eq_zero.mp e)
  unfold QTabWidget.count at h1 ⊢
  unfold QTabWidget.removeTab at hlen ⊢
  by_cases hv : 0 ≤ index ∧ index < t.count
  · rw [if_pos hv] at hlen ⊢
    unfold QTabWidget.count at hv
    have hl : (t.tabs.eraseIdx index.toNat).length = t.tabs.length - 1 :=
      List.length_eraseIdx_of_lt (by omega)
    simp only [hl] at hlen ⊢
    constructor
    · split_ifs
      all_goals first | contradiction | omega
    · split_ifs
      all_goals first | contradiction | omega
  · rw [if_neg hv]
    exact ⟨h0, h1⟩

theorem updatePage_eq (s : ShaderWorkshop) (page : Nat) (f : EditorPage → EditorPage)
    (h : page < s.heap.length) :
    updatePage s page f = some { s with heap := s.heap.set page (f s.heap[page]) } := by
  unfold updatePage
  rw [List.getElem?_eq_getElem h]

theorem newBufferRequested_eq (r : Renderer) (s : ShaderWorkshop) (hF : Frame s)
    (p : Nat) (name : String) (ht : (p, name) ∈ slots) (hp : p < s.heap.length) :
    newBufferRequested r name s =
      some { s with
        heap := (s.heap.set p (s.heap[p].setShaderSource r.defaultFragmentShader)).set p
          ((s.heap[p].setShaderSource r.defaultFragmentShader).clearShaderLog)
        tab := (s.tab.insertTab s.tab.count p name).1
        comboBox := s.comboBox.erase name
        calls := s.calls ++ [.defaultFragmentShader, .createEffect p] } := by
  obtain ⟨h1, h2, -, h4⟩ := slots_spec (p, name) ht
  have hne : name ≠ s.defaultItemName := by rw [hF.defaultItemName_eq]; exact h4
  have h1s : QMap.find s.pages name = some p := by rw [hF.pages_eq]; exact h1
  have h2s : QMap.find s.pageIndices p = some p := by rw [hF.pageIndices_eq]; exact h2
  unfold newBufferRequested
  rw [if_neg hne, h1s]
  simp only [call, Option.bind_eq_bind]
  rw [updatePage_eq _ _ _ (by simpa using hp)]
  simp only [Option.some_bind]
  rw [updatePage_eq _ _ _ (by simpa using hp)]
  simp only [Option.some_bind, pageIndex, h2s, removeItem_findText]
  simp

theorem bufferCloseRequested_eq (s : ShaderWorkshop) (hF : Frame s) (index : Int)
    (p : Nat) (name : String) (ht : (p, name) ∈ slots) (hat : s.tab.tabAt index = some (p, name)) :
    bufferCloseRequested index s =
      some { s with
        tab := s.tab.removeTab index
        comboBox := s.comboBox ++ [name]
        calls := s.calls ++ [.deleteEffect p] } := by
  obtain ⟨h1, h2, -, -⟩ := slots_spec (p, name) ht
  have h1s : QMap.find s.pages name = some p := by rw [hF.pages_eq]; exact h1
  have h2s : QMap.find s.pageIndices p = some p := by rw [hF.pageIndices_eq]; exact h2
  unfold bufferCloseRequested
  simp only [QTabWidget.tabText, hat, h1s, pageIndex, h2s, call,
    QComboBox.addItem, Option.bind_eq_bind, Option.some_bind]

/-! ## The shape of the widgets in every state the handlers produce -/

theorem ordinarySlots_spec :
    ∀ t ∈ ordinarySlots, t ∈ slots ∧ t.1 ≠ 0 ∧ t.2 ≠ "Image" ∧ t.2 ≠ "Add buffer" ∧
      1 ≤ t.1 ∧ t.1 < 5 := by
  decide

theorem find_mem {K V : Type} [DecidableEq K] (l : List (K × V)) (k : K) (v : V)
    (h : QMap.find l k = some v) : (k, v) ∈ l := by
  induction l with
  | nil => simp [QMap.find] at h
  | cons x rest ih =>
    obtain ⟨k0, v0⟩ := x
    unfold QMap.find at h
    by_cases hk : k0 = k
    · rw [if_pos hk] at h
      cases h
      subst hk
      exact List.mem_cons_self _ _
    · rw [if_neg hk] at h
      exact List.mem_cons_of_mem _ (ih h)

theorem registered_mem_slots (s : ShaderWorkshop) (hF : Frame s) (name : String) (p : Nat)
    (h : QMap.find s.pages name = some p) : (p, name) ∈ slots := by
  rw [hF.pages_eq] at h
  have hm := find_mem _ _ _ h
  obtain ⟨t, ht, he⟩ := List.mem_map.mp hm
  cases he
  exact ht

theorem mem_ordinarySlots_of_ne (p : Nat) (name : String) (h : (p, name) ∈ slots)
    (hne : name ≠ "Image") : (p, name) ∈ ordinarySlots := by
  simp only [slots, List.mem_cons, Prod.mk.injEq, List.mem_singleton, List.not_mem_nil,
    or_false] at h
  rcases h with h | h | h | h | h
  · exact absurd h.2 hne
  all_goals (obtain ⟨rfl, rfl⟩ := h; decide)

theorem shape_init (r : Renderer) : Shape (init r) [] ordinaryNames := by
  refine ⟨frame_init r, ?_, ?_, ?_, ?_, ?_, ?_⟩
  · rw [init_eq]
  · intro t ht; cases ht
  · rw [init_eq]; rfl
  · intro n hn; exact hn
  · rw [init_eq]
  · simp [init_eq, QTabWidget.count]

theorem shape_paintEvent (s : ShaderWorkshop) (rest : List (Nat × String)) (pool : List String)
    (h : Shape s rest pool) : Shape (paintEvent s) rest pool := by
  unfold paintEvent
  split
  · exact ⟨⟨h.frame.1, h.frame.2, h.frame.3, h.frame.4, h.frame.5, h.frame.6, h.frame.7⟩,
      h.tabs_eq, h.rest_mem, h.comboBox_eq, h.pool_mem, h.current_nonneg, h.current_lt⟩
  · exact h

theorem slots_fst_inj : ∀ a ∈ slots, ∀ b ∈ slots, a.1 = b.1 → a = b := by
  decide

theorem slots_snd_inj : ∀ a ∈ slots, ∀ b ∈ slots, a.2 = b.2 → a = b := by
  decide

theorem tabs_mem_slots (s : ShaderWorkshop) (rest : List (Nat × String)) (pool : List String)
    (h : Shape s rest pool) : ∀ e ∈ s.tab.tabs, e ∈ slots := by
  intro e he
  rw [h.tabs_eq] at he
  rcases List.mem_cons.mp he with h0 | h0
  · rw [h0]; decide
  · exact (ordinarySlots_spec e (h.rest_mem e h0)).1

/-- The tabs after `insertTab` at the end, for a registered slot: the tab of the slot, if it has
one, is moved to the end. -/
theorem insertTab_tabs (s : ShaderWorkshop) (rest : List (Nat × String)) (pool : List String)
    (h : Shape s rest pool) (p : Nat) (name : String) (hs : (p, name) ∈ slots) :
    (s.tab.insertTab s.tab.count p name).1.tabs = s.tab.tabs.erase (p, name) ++ [(p, name)] := by
  rw [insertTab_count, removeTab_indexOf_tabs s.tab p name]
  intro e he hep
  exact slots_fst_inj e (tabs_mem_slots s rest pool h e he) (p, name) hs hep

/-- Activating a registered ordinary name: the state `newBufferRequested` returns. The tab of the
slot goes to the end, whether the slot had a tab before or not. -/
theorem shape_newBufferRequested (r : Renderer) (s : ShaderWorkshop)
    (rest : List (Nat × String)) (pool : List String) (h : Shape s rest pool)
    (p : Nat) (name : String) (ht : (p, name) ∈ ordinarySlots) :
    ∃ t, newBufferRequested r name s = some t ∧
      Shape t (rest.erase (p, name) ++ [(p, name)]) (pool.erase name) ∧
      t.tab.tabs = s.tab.tabs.erase (p, name) ++ [(p, name)] ∧
      t.comboBox = s.comboBox.erase name ∧
      t.calls = s.calls ++ [.defaultFragmentShader, .createEffect p] ∧
      t.imageEffectCreated = s.imageEffectCreated ∧
      t.heap = (s.heap.set p (s.heap[p]?.getD EditorPage.new |>.setShaderSource
          r.defaultFragmentShader)).set p
        ⟨r.defaultFragmentShader, []⟩ := by
  obtain ⟨hs, hp0, -, hne, -, hlt⟩ := ordinarySlots_spec (p, name) ht
  have hp : p < s.heap.length := by rw [h.frame.heap_length]; exact hlt
  have hF := h.frame
  have htabs := insertTab_tabs s rest pool h p name hs
  have herase : s.tab.tabs.erase (p, name) = (0, "Image") :: rest.erase (p, name) := by
    have hne1 : (((0 : Nat), "Image") == (p, name)) = false := by
      simpa using fun (e : 0 = p) => absurd e.symm hp0
    rw [h.tabs_eq, List.erase_cons, hne1]
    rfl
  have hrm : (s.tab.removeTab (s.tab.indexOf p)).tabs = (0, "Image") :: rest.erase (p, name) := by
    rw [removeTab_indexOf_tabs s.tab p name, herase]
    intro e he hep
    exact slots_fst_inj e (tabs_mem_slots s rest pool h e he) (p, name) hs hep
  have hvalid := removeTab_current s.tab (s.tab.indexOf p) h.current_nonneg h.current_lt
    (by rw [hrm]; simp)
  have hlen : (s.tab.removeTab (s.tab.indexOf p)).tabs.length ≠ 0 := by rw [hrm]; simp
  have hcur : ¬ (s.tab.removeTab (s.tab.indexOf p)).count ≤
      (s.tab.removeTab (s.tab.indexOf p)).currentIndex := not_le.mpr hvalid.2
  refine ⟨_, newBufferRequested_eq r s hF p name hs hp, ?_, ?_, ?_, ?_, ?_, ?_⟩
  · refine ⟨⟨hF.1, hF.2, hF.3, hF.4, hF.5, hF.6, ?_⟩, ?_, ?_, ?_, ?_, ?_, ?_⟩
    · simpa using hF.heap_length
    · show (s.tab.insertTab s.tab.count p name).1.tabs = _
      rw [htabs, herase]
      rfl
    · intro t htm
      rcases List.mem_append.mp htm with h1 | h1
      · exact h.rest_mem t (List.mem_of_mem_erase h1)
      · rw [List.mem_singleton.mp h1]; exact ht
    · have : ("Add buffer" == name) = false := by
        simpa using fun e => hne e.symm
      simp [h.comboBox_eq, List.erase_cons, this]
    · intro n hn
      exact h.pool_mem n (List.mem_of_mem_erase hn)
    · show 0 ≤ (s.tab.insertTab s.tab.count p name).1.currentIndex
      rw [insertTab_count]
      simp only [if_neg hlen, if_neg hcur]
      exact hvalid.1
    · show (s.tab.insertTab s.tab.count p name).1.currentIndex <
        (s.tab.insertTab s.tab.count p name).1.count
      rw [insertTab_count]
      simp only [if_neg hlen, if_neg hcur, QTabWidget.count,
        List.length_append, List.length_singleton]
      have := hvalid.2
      unfold QTabWidget.count at this
      push_cast
      omega
  · exact htabs
  · rfl
  · rfl
  · rfl
  · simp [List.getElem?_eq_getElem hp, EditorPage.setShaderSource, EditorPage.clearShaderLog]

theorem tabAt_ordinary (s : ShaderWorkshop) (rest : List (Nat × String)) (pool : List String)
    (h : Shape s rest pool) (index : Int) (ho : ordinaryAt s index = true) :
    ∃ (j : Nat) (p : Nat) (name : String), index = (j : Int) + 1 ∧ rest[j]? = some (p, name) ∧
      s.tab.tabAt index = some (p, name) ∧ (p, name) ∈ ordinarySlots := by
  unfold ordinaryAt at ho
  cases hat : s.tab.tabAt index with
  | none => rw [hat] at ho; cases ho
  | some t =>
    obtain ⟨p, name⟩ := t
    rw [hat] at ho
    have hne : p ≠ 0 := by simpa [h.frame.imagePage_eq] using ho
    have hat0 := hat
    unfold QTabWidget.tabAt at hat
    by_cases hneg : index < 0
    · rw [if_pos hneg] at hat; cases hat
    · rw [if_neg hneg, h.tabs_eq] at hat
      cases hj : index.toNat with
      | zero =>
        rw [hj] at hat
        simp at hat
        exact absurd hat.1.symm hne
      | succ j =>
        rw [hj] at hat
        simp only [List.getElem?_cons_succ] at hat
        refine ⟨j, p, name, ?_, hat, rfl, h.rest_mem _ (List.getElem?_mem hat)⟩
        omega

/-- Closing the tab of an ordinary slot: the state `bufferCloseRequested` returns. -/
theorem shape_bufferCloseRequested (s : ShaderWorkshop)
    (rest : List (Nat × String)) (pool : List String) (h : Shape s rest pool)
    (index : Int) (ho : ordinaryAt s index = true) :
    ∃ (t : ShaderWorkshop) (j : Nat) (p : Nat) (name : String),
      bufferCloseRequested index s = some t ∧ index = (j : Int) + 1 ∧
      rest[j]? = some (p, name) ∧ (p, name) ∈ ordinarySlots ∧
      Shape t (rest.eraseIdx j) (pool ++ [name]) ∧
      s.tab.tabText index = name ∧
      t.comboBox = s.comboBox ++ [name] ∧ t.calls = s.calls ++ [.deleteEffect p] ∧
      t.imageEffectCreated = s.imageEffectCreated ∧ t.heap = s.heap := by
  obtain ⟨j, p, name, hidx, hj, hat, hmem⟩ := tabAt_ordinary s rest pool h index ho
  obtain ⟨hs, -, -, -, -, -⟩ := ordinarySlots_spec (p, name) hmem
  have hF := h.frame
  have hjlt : j < rest.length := by
    by_contra hge
    rw [List.getElem?_eq_none (not_lt.mp hge)] at hj
    cases hj
  have hcount : s.tab.count = (rest.length : Int) + 1 := by
    unfold QTabWidget.count; rw [h.tabs_eq]; simp
  have hvalid : 0 ≤ index ∧ index < s.tab.count := by
    rw [hcount]; omega
  have htn : index.toNat = j + 1 := by omega
  have hlen : (rest.eraseIdx j).length = rest.length - 1 := List.length_eraseIdx_of_lt hjlt
  have hrm : (s.tab.removeTab index).tabs = (0, "Image") :: rest.eraseIdx j := by
    unfold QTabWidget.removeTab
    rw [if_pos hvalid]
    simp [h.tabs_eq, htn]
  have hc1 := h.current_nonneg
  have hc2 := h.current_lt
  rw [hcount] at hc2
  refine ⟨_, j, p, name, bufferCloseRequested_eq s hF index p name hs hat, hidx, hj, hmem,
    ?_, ?_, rfl, rfl, rfl, rfl⟩
  · refine ⟨⟨hF.1, hF.2, hF.3, hF.4, hF.5, hF.6, hF.7⟩, hrm, ?_, ?_, ?_, ?_, ?_⟩
    · intro t ht
      exact h.rest_mem t (List.mem_of_mem_eraseIdx ht)
    · simp [h.comboBox_eq]
    · intro n hn
      rcases List.mem_append.mp hn with h1 | h1
      · exact h.pool_mem n h1
      · rw [List.mem_singleton.mp h1]
        show name ∈ ordinarySlots.map Prod.snd
        exact List.mem_map.mpr ⟨(p, name), hmem, rfl⟩
    · show 0 ≤ (s.tab.removeTab index).currentIndex
      unfold QTabWidget.removeTab
      rw [if_pos hvalid]
      simp only [h.tabs_eq, htn, List.eraseIdx_cons_succ, List.length_cons, hlen]
      split_ifs
      all_goals first | contradiction | omega
    · show (s.tab.removeTab index).currentIndex < (s.tab.removeTab index).count
      unfold QTabWidget.count
      rw [hrm]
      unfold QTabWidget.removeTab
      rw [if_pos hvalid]
      simp only [h.tabs_eq, htn, List.eraseIdx_cons_succ, List.length_cons, hlen]
      split_ifs
      all_goals first | contradiction | (push_cast; omega)
  · simp [QTabWidget.tabText, hat]

theorem currentPage_shape (s : ShaderWorkshop) (rest : List (Nat × String)) (pool : List String)
    (h : Shape s rest pool) :
    ∃ p name, s.tab.tabAt s.tab.currentIndex = some (p, name) ∧ currentPage s = some p ∧
      (p, name) ∈ slots ∧ p < s.heap.length ∧ pageIndex s p = some p := by
  have hc1 := h.current_nonneg
  have hc2 := h.current_lt
  unfold QTabWidget.count at hc2
  have hlt : s.tab.currentIndex.toNat < s.tab.tabs.length := by omega
  obtain ⟨x, hx⟩ : ∃ x, s.tab.tabs[s.tab.currentIndex.toNat]? = some x :=
    ⟨_, List.getElem?_eq_getElem hlt⟩
  obtain ⟨p, name⟩ := x
  have hat : s.tab.tabAt s.tab.currentIndex = some (p, name) := by
    unfold QTabWidget.tabAt
    rw [if_neg (not_lt.mpr hc1), hx]
  have hmem : (p, name) ∈ slots := by
    have hm := List.getElem?_mem hx
    rw [h.tabs_eq] at hm
    rcases List.mem_cons.mp hm with h0 | h0
    · rw [h0]; decide
    · exact (ordinarySlots_spec _ (h.rest_mem _ h0)).1
  obtain ⟨-, h2, h3, -⟩ := slots_spec _ hmem
  refine ⟨p, name, hat, ?_, hmem, ?_, ?_⟩
  · simp [currentPage, QTabWidget.currentWidget, hat]
  · rw [h.frame.heap_length]; exact h3
  · unfold pageIndex; rw [h.frame.pageIndices_eq]; exact h2

/-- The recompile action in a state of the right shape: the state it returns. -/
theorem shape_recompile (r : Renderer) (s : ShaderWorkshop)
    (rest : List (Nat × String)) (pool : List String) (h : Shape s rest pool) :
    ∃ p name, ∃ hp : p < s.heap.length,
      s.tab.tabAt s.tab.currentIndex = some (p, name) ∧ pageIndex s p = some p ∧
      on_actionRecompile_Shader_triggered r s =
        some { s with
          calls := s.calls ++ [.recompileEffectShader p s.heap[p].shaderSource]
          heap := s.heap.set p
            (s.heap[p].shaderLogUpdated (r.recompileEffectShader p s.heap[p].shaderSource)) } := by
  obtain ⟨p, name, hat, hcp, -, hp, hidx⟩ := currentPage_shape s rest pool h
  refine ⟨p, name, hp, hat, hidx, ?_⟩
  unfold on_actionRecompile_Shader_triggered
  simp only [hcp, hidx, List.getElem?_eq_getElem hp, Option.bind_eq_bind, Option.some_bind]
  rw [updatePage_eq _ _ _ (by simpa [call] using hp)]
  simp [call]

theorem shape_of_same_widgets (s t : ShaderWorkshop) (rest : List (Nat × String))
    (pool : List String) (h : Shape s rest pool)
    (h1 : t.tab.tabs = s.tab.tabs) (h2 : t.tab.currentIndex = s.tab.currentIndex)
    (h3 : t.comboBox = s.comboBox) (h4 : t.pages = s.pages) (h5 : t.pageIndices = s.pageIndices)
    (h6 : t.imagePage = s.imagePage) (h7 : t.defaultItemName = s.defaultItemName)
    (h8 : t.maxBufferPages = s.maxBufferPages) (h9 : t.imagePageIndex = s.imagePageIndex)
    (h10 : t.heap.length = s.heap.length) : Shape t rest pool := by
  refine ⟨⟨?_, ?_, ?_, ?_, ?_, ?_, ?_⟩, ?_, h.rest_mem, ?_, h.pool_mem, ?_, ?_⟩
  · rw [h4]; exact h.frame.1
  · rw [h5]; exact h.frame.2
  · rw [h6]; exact h.frame.3
  · rw [h7]; exact h.frame.4
  · rw [h8]; exact h.frame.5
  · rw [h9]; exact h.frame.6
  · rw [h10]; exact h.frame.7
  · rw [h1]; exact h.tabs_eq
  · rw [h3]; exact h.comboBox_eq
  · rw [h2]; exact h.current_nonneg
  · unfold QTabWidget.count; rw [h2, h1]; exact h.current_lt

theorem liveEffects_append (calls : List RendererCall) (c : RendererCall) :
    liveEffects (calls ++ [c]) = liveStep (liveEffects calls) c := by
  simp [liveEffects, List.foldl_append]

theorem shape_recompile_some (r : Renderer) (s t : ShaderWorkshop)
    (rest : List (Nat × String)) (pool : List String) (h : Shape s rest pool)
    (ht : on_actionRecompile_Shader_triggered r s = some t) :
    Shape t rest pool ∧ liveEffects t.calls = liveEffects s.calls ∧
      t.imageEffectCreated = s.imageEffectCreated := by
  obtain ⟨p, name, hp, -, -, he⟩ := shape_recompile r s rest pool h
  rw [he] at ht
  cases ht
  refine ⟨shape_of_same_widgets s _ rest pool h rfl rfl rfl rfl rfl rfl rfl rfl rfl (by simp),
    ?_, rfl⟩
  show liveEffects (s.calls ++ [_]) = _
  rw [liveEffects_append]
  rfl

theorem shape_currentChanged (s : ShaderWorkshop) (rest : List (Nat × String))
    (pool : List String) (h : Shape s rest pool) (index : Int) :
    Shape { s with tab := s.tab.setCurrentIndex index } rest pool := by
  unfold QTabWidget.setCurrentIndex
  by_cases hv : 0 ≤ index ∧ index < s.tab.count
  · rw [if_pos hv]
    exact ⟨⟨h.frame.1, h.frame.2, h.frame.3, h.frame.4, h.frame.5, h.frame.6, h.frame.7⟩,
      h.tabs_eq, h.rest_mem, h.comboBox_eq, h.pool_mem, hv.1, hv.2⟩
  · rw [if_neg hv]
    exact h

theorem shape_sourceEdited (s t : ShaderWorkshop) (rest : List (Nat × String))
    (pool : List String) (h : Shape s rest pool) (text : String)
    (ht : sourceEdited text s = some t) :
    Shape t rest pool ∧ t.calls = s.calls ∧ t.imageEffectCreated = s.imageEffectCreated := by
  obtain ⟨p, name, -, hcp, -, hp, -⟩ := currentPage_shape s rest pool h
  unfold sourceEdited at ht
  rw [hcp] at ht
  simp only at ht
  rw [updatePage_eq _ _ _ hp] at ht
  cases ht
  exact ⟨shape_of_same_widgets s _ rest pool h rfl rfl rfl rfl rfl rfl rfl rfl rfl (by simp),
    rfl, rfl⟩

/-- What `newBufferRequested` does with a name: nothing for the placeholder, the activation
otherwise (and the name is then a registered one). -/
theorem newBufferRequested_cases (r : Renderer) (s t : ShaderWorkshop) (name : String)
    (hF : Frame s) (ht : newBufferRequested r name s = some t) :
    (name = "Add buffer" ∧ t = s) ∨ (name ≠ "Add buffer" ∧ ∃ p, (p, name) ∈ slots) := by
  by_cases hn : name = "Add buffer"
  · left
    refine ⟨hn, ?_⟩
    unfold newBufferRequested at ht
    rw [if_pos (by rw [hF.defaultItemName_eq]; exact hn)] at ht
    cases ht
    rfl
  · right
    refine ⟨hn, ?_⟩
    unfold newBufferRequested at ht
    rw [if_neg (by rw [hF.defaultItemName_eq]; exact hn)] at ht
    cases hfind : QMap.find s.pages name with
    | none => rw [hfind] at ht; cases ht
    | some p => exact ⟨p, registered_mem_slots s hF name p hfind⟩

theorem ordinaryStep_shape (r : Renderer) (s t : ShaderWorkshop)
    (rest : List (Nat × String)) (pool : List String) (h : Shape s rest pool)
    (hst : OrdinaryStep r s t) : ∃ rest1 pool1, Shape t rest1 pool1 := by
  cases hst with
  | paint => exact ⟨rest, pool, shape_paintEvent s rest pool h⟩
  | activated _ name hne ht =>
    rcases newBufferRequested_cases r s t name h.frame ht with ⟨-, rfl⟩ | ⟨-, p, hp⟩
    · exact ⟨rest, pool, h⟩
    · obtain ⟨u, hu, hshape, -⟩ := shape_newBufferRequested r s rest pool h p name
        (mem_ordinarySlots_of_ne p name hp hne)
      rw [hu] at ht
      cases ht
      exact ⟨_, _, hshape⟩
  | tabCloseRequested _ index ho ht =>
    obtain ⟨u, j, p, name, hu, -, -, -, hshape, -⟩ :=
      shape_bufferCloseRequested s rest pool h index ho
    rw [hu] at ht
    cases ht
    exact ⟨_, _, hshape⟩
  | recompile _ ht => exact ⟨rest, pool, (shape_recompile_some r s t rest pool h ht).1⟩
  | currentChanged index => exact ⟨rest, pool, shape_currentChanged s rest pool h index⟩
  | edited _ text ht => exact ⟨rest, pool, (shape_sourceEdited s t rest pool h text ht).1⟩

theorem ordinaryReachable_shape (r : Renderer) (s : ShaderWorkshop)
    (h : OrdinaryReachable r s) : ∃ rest pool, Shape s rest pool := by
  induction h with
  | init => exact ⟨[], ordinaryNames, shape_init r⟩
  | step s t _ hst ih =>
    obtain ⟨rest, pool, hs⟩ := ih
    exact ordinaryStep_shape r s t rest pool hs hst

/-! ## The ledger: pool against tabs, live effects against tabs -/

theorem perm_cons_eraseIdx {α : Type} (l : List α) (j : Nat) (x : α) (h : l[j]? = some x) :
    l.Perm (x :: l.eraseIdx j) := by
  induction l generalizing j with
  | nil => simp at h
  | cons a rest ih =>
    cases j with
    | zero =>
      simp at h
      subst h
      simp
    | succ j =>
      simp only [List.getElem?_cons_succ] at h
      simp only [List.eraseIdx_cons_succ]
      exact ((ih j h).cons a).trans (List.Perm.swap x a _)

theorem ledger_init (r : Renderer) : Ledger (init r) [] ordinaryNames := by
  constructor
  · simp
  · rw [init_eq]
    simp [liveEffects, liveStep]

theorem ledger_paintEvent (s : ShaderWorkshop) (rest : List (Nat × String)) (pool : List String)
    (hF : Frame s) (h : Ledger s rest pool) : Ledger (paintEvent s) rest pool := by
  unfold paintEvent
  cases hflag : s.imageEffectCreated with
  | true => simpa using h
  | false =>
    have hl := h.live
    rw [hflag] at hl
    simp only [Bool.false_eq_true, if_false, List.nil_append] at hl
    refine ⟨h.names, ?_⟩
    simp only [Bool.not_false, if_true, call, hF.imagePageIndex_eq, liveEffects_append, liveStep]
    exact List.perm_append_singleton 0 _ |>.trans (hl.cons 0)

theorem not_mem_rest_of_mem_pool (s : ShaderWorkshop) (rest : List (Nat × String))
    (pool : List String) (hl : Ledger s rest pool) (p : Nat) (name : String)
    (hmem : name ∈ pool) : (p, name) ∉ rest := by
  intro hr
  have hnd : (pool ++ rest.map Prod.snd).Nodup := hl.names.nodup_iff.mpr (by decide)
  exact (List.nodup_append.mp hnd).2.2 hmem (List.mem_map.mpr ⟨(p, name), hr, rfl⟩)

/-- Activating a name of the pool: its slot has no tab yet, so the new tab is appended. -/
theorem shape_newBufferRequested_offered (r : Renderer) (s : ShaderWorkshop)
    (rest : List (Nat × String)) (pool : List String) (h : Shape s rest pool)
    (hl : Ledger s rest pool) (p : Nat) (name : String) (ht : (p, name) ∈ ordinarySlots)
    (hmem : name ∈ pool) :
    ∃ t, newBufferRequested r name s = some t ∧
      Shape t (rest ++ [(p, name)]) (pool.erase name) ∧
      t.tab.tabs = s.tab.tabs ++ [(p, name)] ∧
      t.comboBox = s.comboBox.erase name ∧
      t.calls = s.calls ++ [.defaultFragmentShader, .createEffect p] ∧
      t.imageEffectCreated = s.imageEffectCreated ∧
      t.heap = (s.heap.set p (s.heap[p]?.getD EditorPage.new |>.setShaderSource
          r.defaultFragmentShader)).set p
        ⟨r.defaultFragmentShader, []⟩ := by
  have hnr := not_mem_rest_of_mem_pool s rest pool hl p name hmem
  have hnt : (p, name) ∉ s.tab.tabs := by
    rw [h.tabs_eq]
    intro hm
    rcases List.mem_cons.mp hm with h0 | h0
    · exact (ordinarySlots_spec (p, name) ht).2.1 (Prod.mk.inj h0).1
    · exact hnr h0
  obtain ⟨t, h1, h2, h3, h4⟩ := shape_newBufferRequested r s rest pool h p name ht
  rw [List.erase_of_not_mem hnr] at h2
  rw [List.erase_of_not_mem hnt] at h3
  exact ⟨t, h1, h2, h3, h4⟩

theorem ledger_newBufferRequested (s t : ShaderWorkshop) (rest : List (Nat × String))
    (pool : List String) (h : Ledger s rest pool) (p : Nat) (name : String)
    (hmem : name ∈ pool)
    (hcalls : t.calls = s.calls ++ [.defaultFragmentShader, .createEffect p])
    (hflag : t.imageEffectCreated = s.imageEffectCreated) :
    Ledger t (rest ++ [(p, name)]) (pool.erase name) := by
  constructor
  · have h1 : (pool.erase name ++ List.map Prod.snd (rest ++ [(p, name)])).Perm
        (name :: (pool.erase name ++ rest.map Prod.snd)) := by
      simp only [List.map_append, List.map_cons, List.map_nil, ← List.append_assoc]
      exact List.perm_append_singleton name _
    have h2 : (name :: (pool.erase name ++ rest.map Prod.snd)).Perm
        (pool ++ rest.map Prod.snd) := by
      rw [← List.cons_append]
      exact (List.perm_cons_erase hmem).symm.append_right _
    exact (h1.trans h2).trans h.names
  · have hsplit : s.calls ++ [RendererCall.defaultFragmentShader, RendererCall.createEffect p] =
        (s.calls ++ [RendererCall.defaultFragmentShader]) ++ [RendererCall.createEffect p] := by
      simp
    rw [hcalls, hflag, hsplit, liveEffects_append, liveEffects_append]
    simp only [liveStep, List.map_append, List.map_cons, List.map_nil, ← List.append_assoc]
    exact h.live.append_right _

theorem ledger_bufferCloseRequested (s t : ShaderWorkshop) (rest : List (Nat × String))
    (pool : List String) (h : Ledger s rest pool) (j p : Nat) (name : String)
    (hj : rest[j]? = some (p, name))
    (hcalls : t.calls = s.calls ++ [.deleteEffect p])
    (hflag : t.imageEffectCreated = s.imageEffectCreated) :
    Ledger t (rest.eraseIdx j) (pool ++ [name]) := by
  have hperm := perm_cons_eraseIdx rest j (p, name) hj
  constructor
  · have h1 : (pool ++ [name] ++ List.map Prod.snd (rest.eraseIdx j)).Perm
        (pool ++ List.map Prod.snd ((p, name) :: rest.eraseIdx j)) := by
      simp
    exact (h1.trans ((hperm.map Prod.snd).symm.append_left pool)).trans h.names
  · rw [hcalls, hflag, liveEffects_append]
    simp only [liveStep]
    have h1 : (liveEffects s.calls).Perm
        (p :: ((if s.imageEffectCreated = true then [0] else []) ++
          List.map Prod.fst (rest.eraseIdx j))) := by
      refine h.live.trans ?_
      refine ((hperm.map Prod.fst).append_left _).trans ?_
      simp only [List.map_cons]
      exact List.perm_middle
    have h2 := h1.erase p
    simpa using h2

theorem step_ledger (r : Renderer) (s t : ShaderWorkshop)
    (rest : List (Nat × String)) (pool : List String) (h : Shape s rest pool)
    (hl : Ledger s rest pool) (hst : Step r s t) :
    ∃ rest1 pool1, Shape t rest1 pool1 ∧ Ledger t rest1 pool1 := by
  cases hst with
  | paint =>
    exact ⟨rest, pool, shape_paintEvent s rest pool h, ledger_paintEvent s rest pool h.frame hl⟩
  | activated _ name hin ht =>
    rcases newBufferRequested_cases r s t name h.frame ht with ⟨-, rfl⟩ | ⟨hne, -⟩
    · exact ⟨rest, pool, h, hl⟩
    · rw [h.comboBox_eq] at hin
      have hpool : name ∈ pool := by
        rcases List.mem_cons.mp hin with h0 | h0
        · exact absurd h0 hne
        · exact h0
      obtain ⟨x, hx, hxn⟩ := List.mem_map.mp (show name ∈ ordinarySlots.map Prod.snd from
        h.pool_mem name hpool)
      obtain ⟨p, n⟩ := x
      have hx1 : (p, name) ∈ ordinarySlots := by rw [← hxn]; exact hx
      obtain ⟨u, hu, hshape, -, -, hcalls, hflag, -⟩ :=
        shape_newBufferRequested_offered r s rest pool h hl p name hx1 hpool
      rw [hu] at ht
      cases ht
      exact ⟨_, _, hshape, ledger_newBufferRequested s _ rest pool hl p name hpool hcalls hflag⟩
  | tabCloseRequested _ index ho ht =>
    obtain ⟨u, j, p, name, hu, -, hj, hmem, hshape, -, -, hcalls, hflag, -⟩ :=
      shape_bufferCloseRequested s rest pool h index ho
    rw [hu] at ht
    cases ht
    exact ⟨_, _, hshape, ledger_bufferCloseRequested s _ rest pool hl j p name hj hcalls hflag⟩
  | recompile _ ht =>
    obtain ⟨hshape, hlive, hflag⟩ := shape_recompile_some r s t rest pool h ht
    exact ⟨rest, pool, hshape, ⟨hl.names, by rw [hlive, hflag]; exact hl.live⟩⟩
  | currentChanged index =>
    exact ⟨rest, pool, shape_currentChanged s rest pool h index, ⟨hl.names, hl.live⟩⟩
  | edited _ text ht =>
    obtain ⟨hshape, hcalls, hflag⟩ := shape_sourceEdited s t rest pool h text ht
    exact ⟨rest, pool, hshape, ⟨hl.names, by rw [hcalls, hflag]; exact hl.live⟩⟩

theorem reachable_ledger (r : Renderer) (s : ShaderWorkshop) (h : Reachable r s) :
    ∃ rest pool, Shape s rest pool ∧ Ledger s rest pool := by
  induction h with
  | init => exact ⟨[], ordinaryNames, shape_init r, ledger_init r⟩
  | step s t _ hst ih =>
    obtain ⟨rest, pool, hs, hl⟩ := ih
    exact step_ledger r s t rest pool hs hl hst

/-! ## The constructor for any `maxBufferPages` -/

theorem insert_of_not_mem {K V : Type} [DecidableEq K] (l : List (K × V)) (k : K) (v : V)
    (h : ∀ e ∈ l, e.1 ≠ k) : QMap.insert l k v = l ++ [(k, v)] := by
  induction l with
  | nil => rfl
  | cons x rest ih =>
    obtain ⟨k0, v0⟩ := x
    have h0 : k0 ≠ k := h (k0, v0) (List.mem_cons_self _ _)
    unfold QMap.insert
    rw [if_neg h0, ih (fun e he => h e (List.mem_cons_of_mem _ he))]
    rfl

theorem length_insert_of_mem {K V : Type} [DecidableEq K] (l : List (K × V)) (k : K) (v : V)
    (h : ∃ e ∈ l, e.1 = k) : (QMap.insert l k v).length = l.length := by
  induction l with
  | nil =>
    obtain ⟨e, he, -⟩ := h
    cases he
  | cons x rest ih =>
    obtain ⟨k0, v0⟩ := x
    unfold QMap.insert
    by_cases h0 : k0 = k
    · rw [if_pos h0]; rfl
    · rw [if_neg h0]
      obtain ⟨e, he, hk⟩ := h
      rcases List.mem_cons.mp he with h1 | h1
      · rw [h1] at hk; exact absurd hk h0
      · simp [ih ⟨e, h1, hk⟩]

theorem toNat_ofNat_of_lt (n : Nat) (h : n < 256) : (Char.ofNat n).toNat = n := by
  have hv : n.isValidChar := Or.inl (by omega)
  simp only [Char.ofNat, hv, Char.ofNatAux, Char.toNat, dite_true]
  rfl

theorem bufferName_injOn (a b : Nat) (ha : a < 256) (hb : b < 256)
    (h : bufferName a = bufferName b) : a = b := by
  have h1 := congrArg String.data h
  simp only [bufferName, String.data_append, String.singleton, List.append_cancel_left_eq] at h1
  have h3 : [Char.ofNat ((65 + a) % 256)] = [Char.ofNat ((65 + b) % 256)] := h1
  have h2 := congrArg Char.toNat (List.cons.inj h3).1
  rw [toNat_ofNat_of_lt _ (Nat.mod_lt _ (by norm_num)),
    toNat_ofNat_of_lt _ (Nat.mod_lt _ (by norm_num))] at h2
  omega

theorem bufferName_ne_image (a : Nat) : bufferName a ≠ "Image" := by
  intro h
  have h1 := congrArg String.data h
  simp [bufferName, String.data_append] at h1

theorem slotName_injOn (a b : Nat) (ha : a < 257) (hb : b < 257)
    (h : slotName a = slotName b) : a = b := by
  cases a with
  | zero =>
    cases b with
    | zero => rfl
    | succ b => exact absurd h.symm (bufferName_ne_image b)
  | succ a =>
    cases b with
    | zero => exact absurd h (bufferName_ne_image a)
    | succ b =>
      have := bufferName_injOn a b (by omega) (by omega) h
      omega

/-- One round of the loop of `createPages`, while the buffer names are still fresh. -/
theorem createPage_built (r : Renderer) (m n : Nat) (hn : n < 256) :
    { (createPage (bufferName n) (0 + 1 + n) (built r m n)).1 with
        comboBox := QComboBox.addItem (createPage (bufferName n) (0 + 1 + n) (built r m n)).1.comboBox
          (bufferName n) } = built r m (n + 1) := by
  have hp : QMap.insert (built r m n).pages (bufferName n) (n + 1) =
      (built r m n).pages ++ [(bufferName n, n + 1)] := by
    apply insert_of_not_mem
    intro e he
    obtain ⟨k, hk, rfl⟩ := List.mem_map.mp he
    have hk1 : k < n + 1 := List.mem_range.mp hk
    intro heq
    have := slotName_injOn k (n + 1) (by omega) (by omega) heq
    omega
  have hi : QMap.insert (built r m n).pageIndices (n + 1) (0 + 1 + n) =
      (built r m n).pageIndices ++ [(n + 1, n + 1)] := by
    rw [insert_of_not_mem]
    · simp [Nat.add_comm]
    · intro e he
      obtain ⟨k, hk, rfl⟩ := List.mem_map.mp he
      have hk1 : k < n + 1 := List.mem_range.mp hk
      show k ≠ n + 1
      omega
  have hlen : (built r m n).heap.length = n + 1 := by simp [built]
  unfold createPage
  simp only [hlen, hp, hi, QComboBox.addItem]
  simp only [built, List.range_succ (n + 1), List.range_succ n, List.map_append, List.map_cons,
    List.map_nil, slotName, List.cons_append, List.replicate_succ', EditorPage.new]

theorem createPages_built (r : Renderer) (m n : Nat) (hn : n ≤ 256) :
    createPages ((List.range n).map (fun k => (0 + 1 + k, bufferName k))) (built r m 0) =
      built r m n := by
  induction n with
  | zero => rfl
  | succ n ih =>
    have h := ih (by omega)
    unfold createPages at h ⊢
    rw [List.range_succ, List.map_append, List.foldl_append, h]
    exact createPage_built r m n (by omega)

theorem construct_eq_createPages (r : Renderer) (m : Nat) :
    construct r m =
      some (createPages ((List.range (m - 1)).map (fun k => (0 + 1 + k, bufferName k)))
        (built r m 0)) := rfl

theorem construct_eq_built (r : Renderer) (m : Nat) (hm : m ≤ 257) :
    construct r m = some (built r m (m - 1)) := by
  rw [construct_eq_createPages, createPages_built r m (m - 1) (by omega)]

theorem find_map_self (l : List Nat) (k : Nat) (h : k ∈ l) :
    QMap.find (l.map (fun k => (k, k))) k = some k := by
  induction l with
  | nil => cases h
  | cons a rest ih =>
    simp only [List.map_cons, QMap.find]
    by_cases ha : a = k
    · rw [if_pos ha, ha]
    · rw [if_neg ha]
      rcases List.mem_cons.mp h with h1 | h1
      · exact absurd h1.symm ha
      · exact ih h1

theorem registeredIndices_built (r : Renderer) (m n : Nat) :
    registeredIndices (built r m n) = List.range (n + 1) := by
  unfold registeredIndices pageIndex
  simp only [built, List.filterMap_map]
  have h : ∀ k ∈ List.range (n + 1),
      ((fun e : String × Nat => QMap.find ((List.range (n + 1)).map (fun k => (k, k))) e.2) ∘
        (fun k => (slotName k, k))) k = some k := by
    intro k hk
    exact find_map_self _ k hk
  rw [List.filterMap_congr h, List.filterMap_some]

theorem construct_258 (r : Renderer) :
    (construct r 258).map (fun s => s.pages.length) = some 257 := by
  rw [construct_eq_createPages]
  show Option.map _ (some (createPages ((List.range (256 + 1)).map _) _)) = _
  unfold createPages
  rw [List.range_succ, List.map_append, List.foldl_append]
  have h := createPages_built r 258 256 (le_refl _)
  unfold createPages at h
  rw [h]
  simp only [List.map_cons, List.map_nil, List.foldl_cons, List.foldl_nil, Option.map_some',
    createPage, Option.some.injEq]
  rw [length_insert_of_mem]
  · simp only [built, List.length_map, List.length_range]
  · refine ⟨(slotName 1, 1), ?_, ?_⟩
    · exact List.mem_map.mpr ⟨1, List.mem_range.mpr (by norm_num), rfl⟩
    · show bufferName 0 = bufferName 256
      decide

theorem ordinaryNames_spec : ∀ n ∈ ordinaryNames, n ≠ "Add buffer" ∧ n ≠ "Image" := by
  decide

theorem availableNames_eq (s : ShaderWorkshop) (rest : List (Nat × String)) (pool : List String)
    (h : Shape s rest pool) : availableNames s = pool := by
  unfold availableNames
  rw [h.comboBox_eq, h.frame.defaultItemName_eq]
  simp only [List.filter_cons, ne_eq, not_true_eq_false, decide_False, Bool.false_eq_true,
    if_false]
  rw [List.filter_eq_self]
  intro n hn
  simpa using (ordinaryNames_spec n (h.pool_mem n hn)).1

theorem activeOrdering_eq (s : ShaderWorkshop) (rest : List (Nat × String)) (pool : List String)
    (h : Shape s rest pool) : activeOrdering s = "Image" :: rest.map Prod.snd := by
  unfold activeOrdering
  rw [h.tabs_eq]
  rfl

theorem activeIndices_eq (s : ShaderWorkshop) (rest : List (Nat × String)) (pool : List String)
    (h : Shape s rest pool) : activeIndices s = 0 :: rest.map Prod.fst := by
  unfold activeIndices pageIndex
  rw [h.tabs_eq, h.frame.pageIndices_eq]
  simp only [List.map_cons, List.cons.injEq]
  refine ⟨rfl, ?_⟩
  apply List.map_congr_left
  intro t ht
  rw [(slots_spec t (ordinarySlots_spec t (h.rest_mem t ht)).1).2.1]
  rfl

theorem pool_nodup (s : ShaderWorkshop) (rest : List (Nat × String)) (pool : List String)
    (hl : Ledger s rest pool) : pool.Nodup ∧ (rest.map Prod.snd).Nodup ∧
      ∀ n ∈ pool, n ∉ rest.map Prod.snd := by
  have hnd : (pool ++ rest.map Prod.snd).Nodup := hl.names.nodup_iff.mpr (by decide)
  rw [List.nodup_append] at hnd
  exact ⟨hnd.1, hnd.2.1, fun n h1 h2 => hnd.2.2 h1 h2⟩

theorem rest_fst_nodup (s : ShaderWorkshop) (rest : List (Nat × String)) (pool : List String)
    (h : Shape s rest pool) (hl : Ledger s rest pool) : (rest.map Prod.fst).Nodup := by
  have hnd := (pool_nodup s rest pool hl).2.1
  have hinj : ∀ a ∈ rest, ∀ b ∈ rest, a.2 = b.2 → a = b := by
    intro a ha b hb hab
    have h1 := h.rest_mem a ha
    have h2 := h.rest_mem b hb
    revert hab
    revert a b
    have key : ∀ a ∈ ordinarySlots, ∀ b ∈ ordinarySlots, a.2 = b.2 → a = b := by decide
    intro a _ b _ h1 h2
    exact key a h1 b h2
  have hnodup : rest.Nodup := List.Nodup.of_map Prod.snd hnd
  refine List.Nodup.map_on ?_ hnodup
  intro a ha b hb hab
  have key : ∀ a ∈ ordinarySlots, ∀ b ∈ ordinarySlots, a.1 = b.1 → a = b := by decide
  exact key a (h.rest_mem a ha) b (h.rest_mem b hb) hab

/-! ## The scenarios, state by state -/

theorem frame_arranged (tabs : List (Nat × String)) (current : Int) (comboBox : List String)
    (created : Bool) (heap : List EditorPage) (calls : List RendererCall)
    (h : heap.length = 5) : Frame (arranged tabs current comboBox created heap calls) :=
  ⟨rfl, rfl, rfl, rfl, rfl, rfl, h⟩

theorem init_arranged (r : Renderer) :
    init r = arranged [(0, "Image")] 0
      ["Add buffer", "Buffer A", "Buffer B", "Buffer C", "Buffer D"] false
      [⟨r.defaultFragmentShader, []⟩, ⟨"", []⟩, ⟨"", []⟩, ⟨"", []⟩, ⟨"", []⟩]
      [.defaultFragmentShader] := rfl

/-- Scenario B: the state after activating Buffer A in the fresh state. -/
theorem newBufferRequested_init (r : Renderer) :
    newBufferRequested r "Buffer A" (init r) =
      some (arranged [(0, "Image"), (1, "Buffer A")] 0
        ["Add buffer", "Buffer B", "Buffer C", "Buffer D"] false
        [⟨r.defaultFragmentShader, []⟩, ⟨r.defaultFragmentShader, []⟩, ⟨"", []⟩, ⟨"", []⟩,
          ⟨"", []⟩]
        [.defaultFragmentShader, .defaultFragmentShader, .createEffect 1]) := by
  rw [newBufferRequested_eq r (init r) (frame_init r) 1 "Buffer A" (by decide)
    (by rw [(frame_init r).heap_length]; decide)]
  rw [insertTab_count]
  simp [init_eq, arranged, EditorPage.setShaderSource, EditorPage.clearShaderLog,
    QTabWidget.count, QTabWidget.removeTab, QTabWidget.indexOf]

/-- Scenario D: the state after closing the tab of Buffer A again. -/
theorem bufferCloseRequested_after (heap : List EditorPage) (calls : List RendererCall)
    (h : heap.length = 5) :
    bufferCloseRequested 1 (arranged [(0, "Image"), (1, "Buffer A")] 0
        ["Add buffer", "Buffer B", "Buffer C", "Buffer D"] false heap calls) =
      some (arranged [(0, "Image")] 0
        ["Add buffer", "Buffer B", "Buffer C", "Buffer D", "Buffer A"] false heap
        (calls ++ [.deleteEffect 1])) := by
  have hF := frame_arranged [(0, "Image"), (1, "Buffer A")] 0
    ["Add buffer", "Buffer B", "Buffer C", "Buffer D"] false heap calls h
  rw [bufferCloseRequested_eq _ hF 1 1 "Buffer A" (by decide) rfl]
  simp [arranged, QTabWidget.removeTab, QTabWidget.count]

/-! ## The claims -/

/-- C1, as the code has it: from the fresh state, `newBufferRequested "Buffer A"` and then
`bufferCloseRequested 1` both return; afterwards the only tab is Image, the pool holds the four
buffer names with the closed one moved to the end, and exactly one `deleteEffect` call was
issued, on index 1, the index registered for Buffer A that `createEffect` was called with. -/
theorem C1_round_trip (r : Renderer) :
    ∃ s1 s2, newBufferRequested r "Buffer A" (init r) = some s1 ∧
      bufferCloseRequested 1 s1 = some s2 ∧
      activeOrdering s2 = ["Image"] ∧
      availableNames s2 = ["Buffer B", "Buffer C", "Buffer D", "Buffer A"] ∧
      registeredIndex (init r) "Buffer A" = some 1 ∧
      s1.calls = (init r).calls ++ [.defaultFragmentShader, .createEffect 1] ∧
      s2.calls = s1.calls ++ [.deleteEffect 1] ∧
      deleteCalls s2.calls = [.deleteEffect 1] := by
  refine ⟨_, _, newBufferRequested_init r, bufferCloseRequested_after _ _ rfl, rfl, ?_, ?_, ?_,
    rfl, ?_⟩
  · simp [availableNames, arranged]
  · rw [init_arranged]
    simp [registeredIndex, arranged, QMap.find, pageIndex]
  · rw [init_arranged]
    simp [arranged]
  · simp [deleteCalls, arranged]

/-- C1 as stated fails: after activating and closing Buffer A from the fresh state the ordered
pool is Buffer B, C, D, A, not Buffer A, B, C, D. -/
theorem C1_pool_order_differs :
    ((newBufferRequested demoRenderer "Buffer A" (init demoRenderer)).bind
        (bufferCloseRequested 1)).map availableNames =
      some ["Buffer B", "Buffer C", "Buffer D", "Buffer A"] ∧
    ((newBufferRequested demoRenderer "Buffer A" (init demoRenderer)).bind
        (bufferCloseRequested 1)).map availableNames ≠
      some ["Buffer A", "Buffer B", "Buffer C", "Buffer D"] := by
  decide

theorem reachable_demoState : Reachable demoRenderer demoState :=
  Reachable.step _ _ Reachable.init
    (Step.activated _ _ "Buffer A" (by rw [init_eq]; decide) (newBufferRequested_init demoRenderer))

theorem tabAt_zero (s : ShaderWorkshop) (rest : List (Nat × String)) (pool : List String)
    (h : Shape s rest pool) : s.tab.tabAt 0 = some (0, "Image") := by
  unfold QTabWidget.tabAt
  rw [h.tabs_eq]
  simp

/-- C2, as the code has it: in every reachable state `bufferCloseRequested 0` passes its
assertion and leaves the registry as it is, but it is no no-op: the tab at position 0 is the
Image tab, the call removes it from the active ordering, appends "Image" to the combo box (and so
to the pool) and issues one `deleteEffect` call, on index 0. -/
theorem C2_close_image_tab (r : Renderer) (s : ShaderWorkshop) (h : Reachable r s) :
    ∃ t, bufferCloseRequested 0 s = some t ∧
      s.tab.tabText 0 = "Image" ∧
      activeOrdering t = (activeOrdering s).tail ∧
      "Image" ∉ activeOrdering t ∧
      t.comboBox = s.comboBox ++ ["Image"] ∧
      availableNames t = availableNames s ++ ["Image"] ∧
      t.calls = s.calls ++ [.deleteEffect 0] ∧
      t.pages = s.pages ∧ t.pageIndices = s.pageIndices := by
  obtain ⟨rest, pool, hs, -⟩ := reachable_ledger r s h
  have hat := tabAt_zero s rest pool hs
  have hrm : (s.tab.removeTab 0).tabs = rest := by
    unfold QTabWidget.removeTab QTabWidget.count
    rw [hs.tabs_eq]
    simp
  refine ⟨_, bufferCloseRequested_eq s hs.frame 0 0 "Image" (by decide) hat, ?_, ?_, ?_, rfl, ?_,
    rfl, rfl, rfl⟩
  · simp [QTabWidget.tabText, hat]
  · show (s.tab.removeTab 0).tabs.map Prod.snd = _
    rw [hrm, activeOrdering_eq s rest pool hs]
    rfl
  · show "Image" ∉ (s.tab.removeTab 0).tabs.map Prod.snd
    rw [hrm]
    intro hmem
    obtain ⟨t, ht, he⟩ := List.mem_map.mp hmem
    exact (ordinarySlots_spec t (hs.rest_mem t ht)).2.2.1 he
  · show List.filter _ (s.comboBox ++ ["Image"]) = _
    unfold availableNames
    rw [List.filter_append, hs.frame.defaultItemName_eq]
    rfl

/-- C2 as stated fails: in the fresh state `bufferCloseRequested 0` is no no-op; it removes the
Image tab, puts "Image" into the pool and calls `deleteEffect 0`. -/
theorem C2_close_image_changes_state :
    Reachable demoRenderer (init demoRenderer) ∧
    bufferCloseRequested 0 (init demoRenderer) ≠ some (init demoRenderer) ∧
    (bufferCloseRequested 0 (init demoRenderer)).map
        (fun t => (activeOrdering t, availableNames t, deleteCalls t.calls)) =
      some ([], ["Buffer A", "Buffer B", "Buffer C", "Buffer D", "Image"], [.deleteEffect 0]) :=
  ⟨Reachable.init, by decide, by decide⟩

/-- C2, the amended statement at a reachable state: the state with Buffer A active. -/
theorem C2_close_image_tab_witness :
    Reachable demoRenderer demoState ∧
    ∃ t, bufferCloseRequested 0 demoState = some t ∧
      demoState.tab.tabText 0 = "Image" ∧
      activeOrdering t = (activeOrdering demoState).tail ∧
      "Image" ∉ activeOrdering t ∧
      t.comboBox = demoState.comboBox ++ ["Image"] ∧
      availableNames t = availableNames demoState ++ ["Image"] ∧
      t.calls = demoState.calls ++ [.deleteEffect 0] ∧
      t.pages = demoState.pages ∧ t.pageIndices = demoState.pageIndices :=
  ⟨reachable_demoState, C2_close_image_tab demoRenderer demoState reachable_demoState⟩

/-- C3, as the code has it: in every reachable state the indices of the tabs are pairwise
distinct and the live effects are exactly the effects of the tabs, except that the Image tab has
no effect until `paintEvent` has set `imageEffectCreated`: the number of live effects is the
number of tabs once the flag is set and one less before. -/
theorem C3_live_effects (r : Renderer) (s : ShaderWorkshop) (h : Reachable r s) :
    (liveEffects s.calls).length + (if s.imageEffectCreated = true then 0 else 1) =
      s.tab.tabs.length ∧
    (liveEffects s.calls).Perm
      (if s.imageEffectCreated = true then activeIndices s else (activeIndices s).tail) ∧
    (activeIndices s).Nodup := by
  obtain ⟨rest, pool, hs, hl⟩ := reachable_ledger r s h
  have hidx := activeIndices_eq s rest pool hs
  have hlive := hl.live
  refine ⟨?_, ?_, ?_⟩
  · rw [hlive.length_eq, hs.tabs_eq]
    cases s.imageEffectCreated <;> simp
  · rw [hidx]
    cases hflag : s.imageEffectCreated
    · rw [hflag] at hlive
      simpa using hlive
    · rw [hflag] at hlive
      simpa using hlive
  · rw [hidx, List.nodup_cons]
    refine ⟨?_, rest_fst_nodup s rest pool hs hl⟩
    intro hmem
    obtain ⟨t, ht, he⟩ := List.mem_map.mp hmem
    exact (ordinarySlots_spec t (hs.rest_mem t ht)).2.1 he

/-- C3 as stated fails before the first `paintEvent`: the fresh state has one tab and no live
effect. -/
theorem C3_fresh_state_has_no_effect :
    Reachable demoRenderer (init demoRenderer) ∧
    (liveEffects (init demoRenderer).calls).length = 0 ∧
    (init demoRenderer).tab.tabs.length = 1 ∧
    (liveEffects (init demoRenderer).calls).length ≠ (init demoRenderer).tab.tabs.length :=
  ⟨Reachable.init, by decide, by decide, by decide⟩

/-- C3, the amended statement at a reachable state: Buffer A active and one paint event. -/
theorem C3_live_effects_witness :
    Reachable demoRenderer (paintEvent demoState) ∧
    ((liveEffects (paintEvent demoState).calls).length +
        (if (paintEvent demoState).imageEffectCreated = true then 0 else 1) =
      (paintEvent demoState).tab.tabs.length ∧
    (liveEffects (paintEvent demoState).calls).Perm
      (if (paintEvent demoState).imageEffectCreated = true then activeIndices (paintEvent demoState)
        else (activeIndices (paintEvent demoState)).tail) ∧
    (activeIndices (paintEvent demoState)).Nodup) :=
  ⟨Reachable.step _ _ reachable_demoState (Step.paint _),
    C3_live_effects demoRenderer (paintEvent demoState)
      (Reachable.step _ _ reachable_demoState (Step.paint _))⟩

theorem reachable_busyState : Reachable demoRenderer busyState := by
  have h1 : Reachable demoRenderer
      (arranged [(0, "Image"), (1, "Buffer A"), (2, "Buffer B")] 0
        ["Add buffer", "Buffer C", "Buffer D"] false
        [⟨"void main()", []⟩, ⟨"void main()", []⟩, ⟨"void main()", []⟩, ⟨"", []⟩, ⟨"", []⟩]
        [.defaultFragmentShader, .defaultFragmentShader, .createEffect 1,
          .defaultFragmentShader, .createEffect 2]) :=
    Reachable.step _ _ reachable_demoState
      (Step.activated _ _ "Buffer B" (by decide) (by decide))
  have h2 := Reachable.step _ _ h1 (Step.currentChanged _ 1)
  have h3 := Reachable.step _ _ h2
    (Step.edited _
      (arranged [(0, "Image"), (1, "Buffer A"), (2, "Buffer B")] 1
        ["Add buffer", "Buffer C", "Buffer D"] false
        [⟨"void main()", []⟩, ⟨"edited", []⟩, ⟨"void main()", []⟩, ⟨"", []⟩, ⟨"", []⟩]
        [.defaultFragmentShader, .defaultFragmentShader, .createEffect 1,
          .defaultFragmentShader, .createEffect 2]) "edited" (by decide))
  exact Reachable.step _ _ h3 (Step.recompile _ _ (by decide))

theorem map_snd_erase (l : List (Nat × String)) (p : Nat) (name : String)
    (h : ∀ e ∈ l, e.2 = name → e = (p, name)) :
    (l.erase (p, name)).map Prod.snd = (l.map Prod.snd).erase name := by
  induction l with
  | nil => rfl
  | cons x rest ih =>
    by_cases hx : x.2 = name
    · have hxe : x = (p, name) := h x (List.mem_cons_self _ _) hx
      subst hxe
      simp
    · have hne : (x == (p, name)) = false := by
        simpa using fun (e : x = (p, name)) => hx (by rw [e])
      have hne2 : (x.2 == name) = false := by simpa using hx
      rw [List.erase_cons, hne, List.map_cons, List.erase_cons, hne2]
      simp only [Bool.false_eq_true, if_false, List.map_cons]
      rw [ih (fun e he => h e (List.mem_cons_of_mem _ he))]

/-- A registered name that is not offered belongs to a slot with a tab: Image, or an ordinary
slot that is Active. -/
theorem unoffered_has_tab (s : ShaderWorkshop) (rest : List (Nat × String)) (pool : List String)
    (hs : Shape s rest pool) (hl : Ledger s rest pool) (p : Nat) (name : String)
    (hmem : (p, name) ∈ slots) (hna : name ∉ pool) :
    (name = "Image" ∧ p = 0) ∨ (name ≠ "Image" ∧ (p, name) ∈ rest) := by
  by_cases hn : name = "Image"
  · left
    refine ⟨hn, ?_⟩
    have := slots_snd_inj (p, name) hmem (0, "Image") (by decide) hn
    exact (Prod.mk.inj this).1
  · right
    refine ⟨hn, ?_⟩
    have ho := mem_ordinarySlots_of_ne p name hmem hn
    have hon : name ∈ ordinaryNames :=
      show name ∈ ordinarySlots.map Prod.snd from List.mem_map.mpr ⟨(p, name), ho, rfl⟩
    have hname : name ∈ pool ++ rest.map Prod.snd := hl.names.mem_iff.mpr hon
    rcases List.mem_append.mp hname with h0 | h0
    · exact absurd h0 hna
    · obtain ⟨e, he, hen⟩ := List.mem_map.mp h0
      have hee := slots_snd_inj e (ordinarySlots_spec e (hs.rest_mem e he)).1 (p, name) hmem hen
      rw [← hee]
      exact he

/-- C4, as the code has it: in every reachable state `newBufferRequested` on a registered name
that is not in the pool returns and leaves the combo box, the pool and the registry as they are,
but it does apply the rest of the activation: the slot has its source reset to the default
fragment shader and its log cleared, its tab (it has one) is moved to the end of the active
ordering, and one `createEffect` call is issued on the index registered for the name. For an
ordinary slot, and for Image once `imageEffectCreated` is set, an effect of that index is live
already, so the index is then live twice; for Image before the first paint event none is. -/
theorem C4_unoffered_name (r : Renderer) (s : ShaderWorkshop) (name : String) (p : Nat)
    (h : Reachable r s) (hreg : QMap.find s.pages name = some p)
    (hna : name ∉ availableNames s) :
    ∃ t index, newBufferRequested r name s = some t ∧ pageIndex s p = some index ∧
      t.comboBox = s.comboBox ∧ availableNames t = availableNames s ∧
      t.calls = s.calls ++ [.defaultFragmentShader, .createEffect index] ∧
      t.heap[p]? = some ⟨r.defaultFragmentShader, []⟩ ∧
      t.pages = s.pages ∧ t.pageIndices = s.pageIndices ∧
      name ∈ activeOrdering s ∧
      t.tab.tabs = s.tab.tabs.erase (p, name) ++ [(p, name)] ∧
      activeOrdering t = (activeOrdering s).erase name ++ [name] ∧
      liveEffects t.calls = liveEffects s.calls ++ [index] ∧
      ((name ≠ "Image" ∨ s.imageEffectCreated = true) →
        index ∈ liveEffects s.calls ∧ (liveEffects t.calls).count index = 2) ∧
      ((name = "Image" ∧ s.imageEffectCreated = false) →
        index ∉ liveEffects s.calls ∧ (liveEffects t.calls).count index = 1) := by
  obtain ⟨rest, pool, hs, hl⟩ := reachable_ledger r s h
  have hmem := registered_mem_slots s hs.frame name p hreg
  obtain ⟨-, h2, h3, h4⟩ := slots_spec (p, name) hmem
  have hp : p < s.heap.length := by rw [hs.frame.heap_length]; exact h3
  have hnp : name ∉ pool := by rw [availableNames_eq s rest pool hs] at hna; exact hna
  have hnc : name ∉ s.comboBox := by
    rw [hs.comboBox_eq]
    intro hc
    rcases List.mem_cons.mp hc with h0 | h0
    · exact h4 h0
    · exact hnp h0
  have herase : s.comboBox.erase name = s.comboBox := List.erase_of_not_mem hnc
  have htab := unoffered_has_tab s rest pool hs hl p name hmem hnp
  have hmemt : (p, name) ∈ s.tab.tabs := by
    rw [hs.tabs_eq]
    rcases htab with ⟨hn, hp0⟩ | ⟨-, hr⟩
    · rw [hn, hp0]; exact List.mem_cons_self _ _
    · exact List.mem_cons_of_mem _ hr
  have htabs := insertTab_tabs s rest pool hs p name hmem
  have hsnd : ∀ e ∈ s.tab.tabs, e.2 = name → e = (p, name) := fun e he hen =>
    slots_snd_inj e (tabs_mem_slots s rest pool hs e he) (p, name) hmem hen
  have hlive : liveEffects (s.calls ++ [RendererCall.defaultFragmentShader,
      RendererCall.createEffect p]) = liveEffects s.calls ++ [p] := by
    have hsplit : s.calls ++ [RendererCall.defaultFragmentShader, RendererCall.createEffect p] =
        (s.calls ++ [RendererCall.defaultFragmentShader]) ++ [RendererCall.createEffect p] := by
      simp
    rw [hsplit, liveEffects_append, liveEffects_append]
    rfl
  have hzero : (0 : Nat) ∉ rest.map Prod.fst := by
    intro hm
    obtain ⟨e, he, he0⟩ := List.mem_map.mp hm
    exact (ordinarySlots_spec e (hs.rest_mem e he)).2.1 he0
  have hnd : ((if s.imageEffectCreated = true then [0] else []) ++ rest.map Prod.fst).Nodup := by
    have hr := rest_fst_nodup s rest pool hs hl
    cases s.imageEffectCreated
    · simpa using hr
    · exact List.nodup_cons.mpr ⟨hzero, hr⟩
  have hcount : ∀ q, (liveEffects s.calls).count q =
      ((if s.imageEffectCreated = true then [0] else []) ++ rest.map Prod.fst).count q :=
    fun q => hl.live.count_eq q
  refine ⟨_, p, newBufferRequested_eq r s hs.frame p name hmem hp, ?_, herase, ?_, rfl, ?_,
    rfl, rfl, ?_, htabs, ?_, hlive, ?_, ?_⟩
  · unfold pageIndex; rw [hs.frame.pageIndices_eq]; exact h2
  · show List.filter _ (s.comboBox.erase name) = _
    rw [herase]
    rfl
  · simp [hp, EditorPage.setShaderSource, EditorPage.clearShaderLog]
  · exact List.mem_map.mpr ⟨(p, name), hmemt, rfl⟩
  · show (s.tab.insertTab s.tab.count p name).1.tabs.map Prod.snd = _
    rw [htabs, List.map_append, map_snd_erase s.tab.tabs p name hsnd]
    rfl
  · intro hcase
    have hin : p ∈ (if s.imageEffectCreated = true then [0] else []) ++ rest.map Prod.fst := by
      rcases htab with ⟨hn, hp0⟩ | ⟨-, hr⟩
      · rcases hcase with hc | hc
        · exact absurd hn hc
        · rw [hc, hp0]; simp
      · exact List.mem_append_right _ (List.mem_map.mpr ⟨(p, name), hr, rfl⟩)
    refine ⟨hl.live.mem_iff.mpr hin, ?_⟩
    show (liveEffects (s.calls ++ _)).count p = 2
    rw [hlive, List.count_append, hcount p, List.count_eq_one_of_mem hnd hin]
    simp
  · intro hcase
    obtain ⟨hn, hflag⟩ := hcase
    have hp0 : p = 0 := by
      rcases htab with ⟨-, hp0⟩ | ⟨hne, -⟩
      · exact hp0
      · exact absurd hn hne
    have hnin : p ∉ (if s.imageEffectCreated = true then [0] else []) ++ rest.map Prod.fst := by
      rw [hflag, hp0]
      simpa using hzero
    refine ⟨fun hm => hnin (hl.live.mem_iff.mp hm), ?_⟩
    show (liveEffects (s.calls ++ _)).count p = 1
    rw [hlive, List.count_append, hcount p, List.count_eq_zero_of_not_mem hnin]
    simp

/-- C4 as stated fails: with Buffer A active behind Buffer B, its source edited and a log shown,
`newBufferRequested "Buffer A"` moves its tab to the end, resets its source, clears its log and
issues a second `createEffect 1` while the first effect of index 1 is still live. -/
theorem C4_second_effect_created :
    Reachable demoRenderer busyState ∧
    "Buffer A" ∉ availableNames busyState ∧
    registeredIndex busyState "Buffer A" = some 1 ∧
    activeOrdering busyState = ["Image", "Buffer A", "Buffer B"] ∧
    busyState.heap[1]? = some ⟨"edited", ["compiled 1: edited"]⟩ ∧
    liveEffects busyState.calls = [1, 2] ∧
    (newBufferRequested demoRenderer "Buffer A" busyState).map activeOrdering =
      some ["Image", "Buffer B", "Buffer A"] ∧
    (newBufferRequested demoRenderer "Buffer A" busyState).map (fun t => t.heap[1]?) =
      some (some ⟨"void main()", []⟩) ∧
    (newBufferRequested demoRenderer "Buffer A" busyState).map (fun t => t.calls) =
      some (busyState.calls ++ [.defaultFragmentShader, .createEffect 1]) ∧
    (newBufferRequested demoRenderer "Buffer A" busyState).map (fun t => liveEffects t.calls) =
      some [1, 2, 1] :=
  ⟨reachable_busyState, by decide, by decide, by decide, by decide, by decide, by decide,
    by decide, by decide, by decide⟩

/-- C4, the amended statement at a reachable state and a name not offered: Buffer A while
it is active behind Buffer B. -/
theorem C4_unoffered_name_witness :
    Reachable demoRenderer busyState ∧ QMap.find busyState.pages "Buffer A" = some 1 ∧
    "Buffer A" ∉ availableNames busyState ∧
    ∃ t index, newBufferRequested demoRenderer "Buffer A" busyState = some t ∧
      pageIndex busyState 1 = some index ∧
      t.comboBox = busyState.comboBox ∧ availableNames t = availableNames busyState ∧
      t.calls = busyState.calls ++ [.defaultFragmentShader, .createEffect index] ∧
      t.heap[1]? = some ⟨demoRenderer.defaultFragmentShader, []⟩ ∧
      t.pages = busyState.pages ∧ t.pageIndices = busyState.pageIndices ∧
      "Buffer A" ∈ activeOrdering busyState ∧
      t.tab.tabs = busyState.tab.tabs.erase (1, "Buffer A") ++ [(1, "Buffer A")] ∧
      activeOrdering t = (activeOrdering busyState).erase "Buffer A" ++ ["Buffer A"] ∧
      liveEffects t.calls = liveEffects busyState.calls ++ [index] ∧
      (("Buffer A" ≠ "Image" ∨ busyState.imageEffectCreated = true) →
        index ∈ liveEffects busyState.calls ∧ (liveEffects t.calls).count index = 2) ∧
      (("Buffer A" = "Image" ∧ busyState.imageEffectCreated = false) →
        index ∉ liveEffects busyState.calls ∧ (liveEffects t.calls).count index = 1) :=
  ⟨reachable_busyState, by decide, by decide,
    C4_unoffered_name demoRenderer busyState "Buffer A" 1 reachable_busyState (by decide)
      (by decide)⟩

/-- C5: in every reachable state each ordinary slot name occurs exactly once in the pool and the
active ordering taken together, the pool has no duplicates, activating a name of the pool returns
and leaves the name out of the pool and on a tab, and closing the tab of an ordinary slot returns
and leaves its name in the pool and off the tabs. -/
theorem C5_dormant_active_partition (r : Renderer) (s : ShaderWorkshop) (h : Reachable r s) :
    (∀ name ∈ ordinaryNames,
      (availableNames s).count name + (activeOrdering s).count name = 1) ∧
    (availableNames s).Nodup ∧
    (∀ name ∈ availableNames s, ∃ t, newBufferRequested r name s = some t ∧
      name ∉ availableNames t ∧ name ∈ activeOrdering t) ∧
    (∀ index, ordinaryAt s index = true → ∃ t, bufferCloseRequested index s = some t ∧
      s.tab.tabText index ∈ availableNames t ∧ s.tab.tabText index ∉ activeOrdering t) := by
  obtain ⟨rest, pool, hs, hl⟩ := reachable_ledger r s h
  have hav := availableNames_eq s rest pool hs
  have hact := activeOrdering_eq s rest pool hs
  obtain ⟨hnd, -, -⟩ := pool_nodup s rest pool hl
  refine ⟨?_, ?_, ?_, ?_⟩
  · intro name hname
    have hc := hl.names.count_eq name
    rw [List.count_append, List.count_eq_one_of_mem (by decide) hname] at hc
    have hne : ("Image" == name) = false := by
      simpa using fun e => (ordinaryNames_spec name hname).2 e.symm
    rw [hav, hact, List.count_cons, hne]
    simpa using hc
  · rw [hav]; exact hnd
  · intro name hname
    rw [hav] at hname
    obtain ⟨x, hx, hxn⟩ := List.mem_map.mp (show name ∈ ordinarySlots.map Prod.snd from
      hs.pool_mem name hname)
    obtain ⟨p, n⟩ := x
    have hx1 : (p, name) ∈ ordinarySlots := by rw [← hxn]; exact hx
    obtain ⟨t, ht, hshape, -⟩ :=
      shape_newBufferRequested_offered r s rest pool hs hl p name hx1 hname
    refine ⟨t, ht, ?_, ?_⟩
    · rw [availableNames_eq t _ _ hshape]
      exact hnd.not_mem_erase
    · rw [activeOrdering_eq t _ _ hshape]
      simp
  · intro index ho
    obtain ⟨t, j, p, name, ht, -, hj, -, hshape, htext, -, hcalls, hflag, -⟩ :=
      shape_bufferCloseRequested s rest pool hs index ho
    have hlt := ledger_bufferCloseRequested s t rest pool hl j p name hj hcalls hflag
    obtain ⟨-, -, hdisj⟩ := pool_nodup t _ _ hlt
    have hin : name ∈ pool ++ [name] := by simp
    refine ⟨t, ht, ?_, ?_⟩
    · rw [htext, availableNames_eq t _ _ hshape]
      exact hin
    · rw [htext, activeOrdering_eq t _ _ hshape]
      intro hmem
      rcases List.mem_cons.mp hmem with h0 | h0
      · exact (ordinaryNames_spec name (hshape.pool_mem name hin)).2 h0
      · exact hdisj name hin h0

/-- C5 at a reachable state: the state with Buffer A active. -/
theorem C5_dormant_active_partition_witness :
    Reachable demoRenderer demoState ∧
    ((∀ name ∈ ordinaryNames,
      (availableNames demoState).count name + (activeOrdering demoState).count name = 1) ∧
    (availableNames demoState).Nodup ∧
    (∀ name ∈ availableNames demoState, ∃ t, newBufferRequested demoRenderer name demoState =
        some t ∧ name ∉ availableNames t ∧ name ∈ activeOrdering t) ∧
    (∀ index, ordinaryAt demoState index = true → ∃ t, bufferCloseRequested index demoState =
        some t ∧ demoState.tab.tabText index ∈ availableNames t ∧
        demoState.tab.tabText index ∉ activeOrdering t)) :=
  ⟨reachable_demoState, C5_dormant_active_partition demoRenderer demoState reachable_demoState⟩

theorem reachable_ordinary (r : Renderer) (s : ShaderWorkshop) (h : Reachable r s) :
    OrdinaryReachable r s := by
  induction h with
  | init => exact OrdinaryReachable.init
  | step s t hs hst ih =>
    refine OrdinaryReachable.step s t ih ?_
    obtain ⟨rest, pool, hshape, -⟩ := reachable_ledger r s hs
    cases hst with
    | paint => exact OrdinaryStep.paint _
    | activated _ name hin ht =>
      refine OrdinaryStep.activated _ _ name ?_ ht
      rw [hshape.comboBox_eq] at hin
      rcases List.mem_cons.mp hin with h0 | h0
      · rw [h0]; decide
      · exact (ordinaryNames_spec name (hshape.pool_mem name h0)).2
    | tabCloseRequested _ index ho ht => exact OrdinaryStep.tabCloseRequested _ _ index ho ht
    | recompile _ ht => exact OrdinaryStep.recompile _ _ ht
    | currentChanged index => exact OrdinaryStep.currentChanged _ index
    | edited _ text ht => exact OrdinaryStep.edited _ _ text ht

/-- C6: after any sequence of `newBufferRequested` calls on names other than "Image" (offered in
the combo box or not) and `bufferCloseRequested` calls on positions of ordinary slots, mixed with
the other events, the tab at position 0 is the tab of the image page, labelled "Image", and
"Image" is neither in the combo box nor in the pool. -/
theorem C6_reserved_slot_permanent (r : Renderer) (s : ShaderWorkshop)
    (h : OrdinaryReachable r s) :
    s.tab.tabText 0 = "Image" ∧
    (s.tab.tabAt 0).map Prod.fst = s.imagePage ∧
    (activeOrdering s)[0]? = some "Image" ∧
    ordinaryAt s 0 = false ∧
    "Image" ∉ s.comboBox ∧
    "Image" ∉ availableNames s := by
  obtain ⟨rest, pool, hs⟩ := ordinaryReachable_shape r s h
  have hat := tabAt_zero s rest pool hs
  have hpool : "Image" ∉ pool := fun hmem => (ordinaryNames_spec _ (hs.pool_mem _ hmem)).2 rfl
  refine ⟨?_, ?_, ?_, ?_, ?_, ?_⟩
  · simp [QTabWidget.tabText, hat]
  · rw [hat, hs.frame.imagePage_eq]; rfl
  · rw [activeOrdering_eq s rest pool hs]; simp
  · simp [ordinaryAt, hat, hs.frame.imagePage_eq]
  · rw [hs.comboBox_eq]
    intro hmem
    rcases List.mem_cons.mp hmem with h0 | h0
    · exact absurd h0 (by decide)
    · exact hpool h0
  · rw [availableNames_eq s rest pool hs]; exact hpool

/-- C6 at a reachable state: the state with Buffer A active. -/
theorem C6_reserved_slot_permanent_witness :
    OrdinaryReachable demoRenderer demoState ∧
    (demoState.tab.tabText 0 = "Image" ∧
    (demoState.tab.tabAt 0).map Prod.fst = demoState.imagePage ∧
    (activeOrdering demoState)[0]? = some "Image" ∧
    ordinaryAt demoState 0 = false ∧
    "Image" ∉ demoState.comboBox ∧
    "Image" ∉ availableNames demoState) :=
  ⟨reachable_ordinary _ _ reachable_demoState,
    C6_reserved_slot_permanent demoRenderer demoState
      (reachable_ordinary _ _ reachable_demoState)⟩

/-- C7: in every reachable state, `newBufferRequested` on a name of the pool returns; the slot of
the name is appended after the tabs there were, the name is removed from the pool and the other
names keep their order, and the calls issued are one `defaultFragmentShader` and then one
`createEffect` on the index registered for the name. From the fresh state and "Buffer A" this
gives the tabs Image, Buffer A, the pool Buffer B, C, D and `createEffect 1`. -/
theorem C7_activation (r : Renderer) (s : ShaderWorkshop) (name : String)
    (h : Reachable r s) (hname : name ∈ availableNames s) :
    (∃ t p index, newBufferRequested r name s = some t ∧
      QMap.find s.pages name = some p ∧ pageIndex s p = some index ∧
      registeredIndex s name = some index ∧
      t.tab.tabs = s.tab.tabs ++ [(p, name)] ∧
      activeOrdering t = activeOrdering s ++ [name] ∧
      availableNames t = (availableNames s).erase name ∧
      availableNames t = (availableNames s).filter (fun n => decide (n ≠ name)) ∧
      t.calls = s.calls ++ [.defaultFragmentShader, .createEffect index] ∧
      createCalls [.defaultFragmentShader, .createEffect index] = [.createEffect index]) ∧
    (∃ t, newBufferRequested r "Buffer A" (init r) = some t ∧
      activeOrdering t = ["Image", "Buffer A"] ∧
      availableNames t = ["Buffer B", "Buffer C", "Buffer D"] ∧
      t.calls = (init r).calls ++ [.defaultFragmentShader, .createEffect 1]) := by
  obtain ⟨rest, pool, hs, hl⟩ := reachable_ledger r s h
  have hav := availableNames_eq s rest pool hs
  obtain ⟨hnd, -, -⟩ := pool_nodup s rest pool hl
  constructor
  · rw [hav] at hname
    obtain ⟨x, hx, hxn⟩ := List.mem_map.mp (show name ∈ ordinarySlots.map Prod.snd from
      hs.pool_mem name hname)
    obtain ⟨p, n⟩ := x
    have hx1 : (p, name) ∈ ordinarySlots := by rw [← hxn]; exact hx
    obtain ⟨h1, h2, -, -⟩ := slots_spec (p, name) (ordinarySlots_spec _ hx1).1
    have h1s : QMap.find s.pages name = some p := by rw [hs.frame.pages_eq]; exact h1
    have h2s : pageIndex s p = some p := by
      unfold pageIndex; rw [hs.frame.pageIndices_eq]; exact h2
    obtain ⟨t, ht, hshape, htabs, -, hcalls, -⟩ :=
      shape_newBufferRequested_offered r s rest pool hs hl p name hx1 hname
    refine ⟨t, p, p, ht, h1s, h2s, ?_, htabs, ?_, ?_, ?_, hcalls, rfl⟩
    · simp [registeredIndex, h1s, h2s]
    · simp [activeOrdering, htabs]
    · rw [availableNames_eq t _ _ hshape, hav]
    · rw [availableNames_eq t _ _ hshape, hav, hnd.erase_eq_filter]
      apply List.filter_congr
      intro n _
      by_cases hn : n = name <;> simp [hn]
  · refine ⟨_, newBufferRequested_init r, rfl, ?_, ?_⟩
    · simp [availableNames, arranged]
    · rw [init_arranged]; simp [arranged]

/-- C7 at a reachable state and a name of its pool: Buffer C while Buffer A is active. -/
theorem C7_activation_witness :
    Reachable demoRenderer demoState ∧ "Buffer C" ∈ availableNames demoState ∧
    ((∃ t p index, newBufferRequested demoRenderer "Buffer C" demoState = some t ∧
      QMap.find demoState.pages "Buffer C" = some p ∧ pageIndex demoState p = some index ∧
      registeredIndex demoState "Buffer C" = some index ∧
      t.tab.tabs = demoState.tab.tabs ++ [(p, "Buffer C")] ∧
      activeOrdering t = activeOrdering demoState ++ ["Buffer C"] ∧
      availableNames t = (availableNames demoState).erase "Buffer C" ∧
      availableNames t = (availableNames demoState).filter (fun n => decide (n ≠ "Buffer C")) ∧
      t.calls = demoState.calls ++ [.defaultFragmentShader, .createEffect index] ∧
      createCalls [.defaultFragmentShader, .createEffect index] = [.createEffect index]) ∧
    (∃ t, newBufferRequested demoRenderer "Buffer A" (init demoRenderer) = some t ∧
      activeOrdering t = ["Image", "Buffer A"] ∧
      availableNames t = ["Buffer B", "Buffer C", "Buffer D"] ∧
      t.calls = (init demoRenderer).calls ++ [.defaultFragmentShader, .createEffect 1])) :=
  ⟨reachable_demoState, by decide,
    C7_activation demoRenderer demoState "Buffer C" reachable_demoState (by decide)⟩

/-- C8, as the code has it: the fresh state (`maxBufferPages = 5`) offers Buffer A, B, C, D in
this order, shows the one tab Image, and registers Image with index 0 and Buffer A to D with
indices 1 to 4; and for every maximum `m` from 1 to 257 the constructor returns a registry of
exactly `m` slots with distinct names whose indices are `0 .. m - 1`, each used once. -/
theorem C8_initial_state (r : Renderer) (m : Nat) (h1 : 1 ≤ m) (h2 : m ≤ 257) :
    (construct r 5 = some (init r) ∧
      availableNames (init r) = ["Buffer A", "Buffer B", "Buffer C", "Buffer D"] ∧
      activeOrdering (init r) = ["Image"] ∧
      registeredIndex (init r) "Image" = some 0 ∧
      registeredIndex (init r) "Buffer A" = some 1 ∧
      registeredIndex (init r) "Buffer B" = some 2 ∧
      registeredIndex (init r) "Buffer C" = some 3 ∧
      registeredIndex (init r) "Buffer D" = some 4) ∧
    ∃ s, construct r m = some s ∧ s.pages.length = m ∧ s.pageIndices.length = m ∧
      s.heap.length = m ∧ (s.pages.map Prod.fst).Nodup ∧
      registeredIndices s = List.range m ∧ s.pageIndices.map Prod.snd = List.range m := by
  constructor
  · refine ⟨?_, ?_, rfl, ?_, ?_, ?_, ?_, ?_⟩
    · simp [init]
    all_goals (rw [init_arranged]; simp [availableNames, registeredIndex, arranged, QMap.find,
      pageIndex])
  · have hm : m - 1 + 1 = m := by omega
    refine ⟨_, construct_eq_built r m h2, ?_, ?_, ?_, ?_, ?_, ?_⟩
    · simp [built, hm]
    · simp [built, hm]
    · simp [built, hm]
    · simp only [built, List.map_map]
      refine List.Nodup.map_on ?_ (List.nodup_range _)
      intro a ha b hb hab
      have ha1 := List.mem_range.mp ha
      have hb1 := List.mem_range.mp hb
      exact slotName_injOn a b (by omega) (by omega) hab
    · rw [registeredIndices_built, hm]
    · simp only [built, List.map_map, hm]
      exact List.map_id _

/-- C8 as stated fails for a large maximum: with `maxBufferPages = 258` the name of the last
buffer is "Buffer A" again, so the name map of the registry holds 257 slots, not 258. -/
theorem C8_names_repeat :
    bufferName 256 = bufferName 0 ∧
    (construct demoRenderer 258).map (fun s => s.pages.length) = some 257 ∧
    (construct demoRenderer 258).map (fun s => s.pages.length) ≠ some 258 := by
  refine ⟨by decide, construct_258 demoRenderer, ?_⟩
  rw [construct_258 demoRenderer]
  decide

/-- C8, the amended statement at a maximum within its range: 27 slots, Image and
Buffer A to Buffer Z. -/
theorem C8_initial_state_witness :
    1 ≤ 27 ∧ 27 ≤ 257 ∧
    ((construct demoRenderer 5 = some (init demoRenderer) ∧
      availableNames (init demoRenderer) = ["Buffer A", "Buffer B", "Buffer C", "Buffer D"] ∧
      activeOrdering (init demoRenderer) = ["Image"] ∧
      registeredIndex (init demoRenderer) "Image" = some 0 ∧
      registeredIndex (init demoRenderer) "Buffer A" = some 1 ∧
      registeredIndex (init demoRenderer) "Buffer B" = some 2 ∧
      registeredIndex (init demoRenderer) "Buffer C" = some 3 ∧
      registeredIndex (init demoRenderer) "Buffer D" = some 4) ∧
    ∃ s, construct demoRenderer 27 = some s ∧ s.pages.length = 27 ∧ s.pageIndices.length = 27 ∧
      s.heap.length = 27 ∧ (s.pages.map Prod.fst).Nodup ∧
      registeredIndices s = List.range 27 ∧ s.pageIndices.map Prod.snd = List.range 27) :=
  ⟨by decide, by decide, C8_initial_state demoRenderer 27 (by decide) (by decide)⟩

/-- C9: in every reachable state the recompile action returns; it issues one
`recompileEffectShader` call, on the index registered for the slot of the current tab and with the
current source of its page, appends the returned log to the log of that page, and leaves the
tabs, the combo box, the registry and the live effects as they are. Repeated at once it issues
the same call again and forwards the same log again. -/
theorem C9_recompile (r : Renderer) (s : ShaderWorkshop) (h : Reachable r s) :
    ∃ t u p name index e,
      s.tab.tabAt s.tab.currentIndex = some (p, name) ∧ currentPage s = some p ∧
      s.heap[p]? = some e ∧ registeredIndex s name = some index ∧ pageIndex s p = some index ∧
      on_actionRecompile_Shader_triggered r s = some t ∧
      t.calls = s.calls ++ [.recompileEffectShader index e.shaderSource] ∧
      t.heap = s.heap.set p
        ⟨e.shaderSource, e.shaderLog ++ [r.recompileEffectShader index e.shaderSource]⟩ ∧
      t.tab = s.tab ∧ t.comboBox = s.comboBox ∧ t.pages = s.pages ∧
      t.pageIndices = s.pageIndices ∧ liveEffects t.calls = liveEffects s.calls ∧
      on_actionRecompile_Shader_triggered r t = some u ∧
      u.calls = t.calls ++ [.recompileEffectShader index e.shaderSource] ∧
      u.heap = s.heap.set p
        ⟨e.shaderSource, e.shaderLog ++ [r.recompileEffectShader index e.shaderSource,
          r.recompileEffectShader index e.shaderSource]⟩ ∧
      u.tab = s.tab ∧ u.comboBox = s.comboBox ∧ u.pages = s.pages ∧
      u.pageIndices = s.pageIndices ∧ liveEffects u.calls = liveEffects s.calls := by
  obtain ⟨rest, pool, hs, -⟩ := reachable_ledger r s h
  obtain ⟨p, name, hp, hat, hidx, he⟩ := shape_recompile r s rest pool hs
  have hmem : (p, name) ∈ slots := by
    obtain ⟨p1, name1, hat1, -, hm1, -, -⟩ := currentPage_shape s rest pool hs
    rw [hat] at hat1
    cases hat1
    exact hm1
  have hreg : QMap.find s.pages name = some p := by
    rw [hs.frame.pages_eq]; exact (slots_spec (p, name) hmem).1
  obtain ⟨hshape, hlive, -⟩ := shape_recompile_some r s _ rest pool hs he
  obtain ⟨p2, name2, hp2, hat2, -, he2⟩ := shape_recompile r _ rest pool hshape
  have hpp : p2 = p := by
    have : some (p2, name2) = some (p, name) := hat2.symm.trans hat
    exact (Prod.mk.inj (Option.some.inj this)).1
  subst hpp
  obtain ⟨-, hlive2, -⟩ := shape_recompile_some r _ _ rest pool hshape he2
  refine ⟨_, _, p2, name, p2, s.heap[p2], hat, ?_, List.getElem?_eq_getElem hp, ?_, hidx, he, rfl,
    rfl, rfl, rfl, rfl, rfl, hlive, he2, ?_, ?_, rfl, rfl, rfl, rfl, hlive2.trans hlive⟩
  · simp [currentPage, QTabWidget.currentWidget, hat]
  · simp [registeredIndex, hreg, hidx]
  · simp [EditorPage.shaderLogUpdated]
  · simp [EditorPage.shaderLogUpdated]

/-- C9 at a reachable state: the state with Buffer A active, the Image tab current. -/
theorem C9_recompile_witness :
    Reachable demoRenderer demoState ∧
    ∃ t u p name index e,
      demoState.tab.tabAt demoState.tab.currentIndex = some (p, name) ∧
      currentPage demoState = some p ∧
      demoState.heap[p]? = some e ∧ registeredIndex demoState name = some index ∧
      pageIndex demoState p = some index ∧
      on_actionRecompile_Shader_triggered demoRenderer demoState = some t ∧
      t.calls = demoState.calls ++ [.recompileEffectShader index e.shaderSource] ∧
      t.heap = demoState.heap.set p
        ⟨e.shaderSource,
          e.shaderLog ++ [demoRenderer.recompileEffectShader index e.shaderSource]⟩ ∧
      t.tab = demoState.tab ∧ t.comboBox = demoState.comboBox ∧ t.pages = demoState.pages ∧
      t.pageIndices = demoState.pageIndices ∧
      liveEffects t.calls = liveEffects demoState.calls ∧
      on_actionRecompile_Shader_triggered demoRenderer t = some u ∧
      u.calls = t.calls ++ [.recompileEffectShader index e.shaderSource] ∧
      u.heap = demoState.heap.set p
        ⟨e.shaderSource, e.shaderLog ++ [demoRenderer.recompileEffectShader index e.shaderSource,
          demoRenderer.recompileEffectShader index e.shaderSource]⟩ ∧
      u.tab = demoState.tab ∧ u.comboBox = demoState.comboBox ∧ u.pages = demoState.pages ∧
      u.pageIndices = demoState.pageIndices ∧
      liveEffects u.calls = liveEffects demoState.calls :=
  ⟨reachable_demoState, C9_recompile demoRenderer demoState reachable_demoState⟩

theorem paintEvent_idempotent (s : ShaderWorkshop) : paintEvent (paintEvent s) = paintEvent s := by
  unfold paintEvent
  cases h : s.imageEffectCreated <;> simp [h]

theorem paintEvent_iterate (n : Nat) (hn : 1 ≤ n) (s : ShaderWorkshop) :
    paintEvent^[n] s = paintEvent s := by
  induction n with
  | zero => omega
  | succ k ih =>
    cases k with
    | zero => rfl
    | succ j =>
      rw [Function.iterate_succ_apply', ih (by omega)]
      exact paintEvent_idempotent s

/-- C10: in every reachable state `newBufferRequested` on the placeholder "Add buffer" returns
the state unchanged, so it issues no call. `paintEvent` issues `createEffect 0` and sets
`imageEffectCreated` when the flag is not set, and is the identity when it is; the flag is not
set in the fresh state and no other event changes it, so of any number of paint events the first
alone issues the call, and `n ≥ 1` paint events in a row do what one does: from the fresh state
they add the one call `createEffect 0`. The placeholder is a no-op in any state at all. -/
theorem C10_placeholder_and_readiness (r : Renderer) (s : ShaderWorkshop) (h : Reachable r s) :
    newBufferRequested r "Add buffer" s = some s ∧
    (∀ u : ShaderWorkshop, newBufferRequested r u.defaultItemName u = some u) ∧
    (init r).imageEffectCreated = false ∧
    (∀ n, 1 ≤ n → (paintEvent^[n] (init r)).calls = (init r).calls ++ [.createEffect 0]) ∧
    (s.imageEffectCreated = false →
      paintEvent s =
        { s with calls := s.calls ++ [.createEffect 0], imageEffectCreated := true }) ∧
    (s.imageEffectCreated = true → paintEvent s = s) ∧
    (paintEvent s).imageEffectCreated = true ∧
    (∀ n, 1 ≤ n → paintEvent^[n] s = paintEvent s) ∧
    (∀ t, Step r s t → t = paintEvent s ∨ t.imageEffectCreated = s.imageEffectCreated) := by
  obtain ⟨rest, pool, hs, -⟩ := reachable_ledger r s h
  refine ⟨?_, ?_, ?_, ?_, ?_, ?_, ?_, ?_, ?_⟩
  · unfold newBufferRequested
    rw [if_pos hs.frame.defaultItemName_eq.symm]
  · intro u
    unfold newBufferRequested
    rw [if_pos rfl]
  · rw [init_eq]
  · intro n hn
    rw [paintEvent_iterate n hn, init_eq]
    rfl
  · intro hflag
    unfold paintEvent
    simp [hflag, call, hs.frame.imagePageIndex_eq]
  · intro hflag
    unfold paintEvent
    simp [hflag]
  · unfold paintEvent
    cases hflag : s.imageEffectCreated <;> simp [hflag]
  · exact fun n hn => paintEvent_iterate n hn s
  · intro t hst
    cases hst with
    | paint => exact Or.inl rfl
    | activated _ name hin ht =>
      right
      rcases newBufferRequested_cases r s t name hs.frame ht with ⟨-, rfl⟩ | ⟨hne, -⟩
      · rfl
      · rw [hs.comboBox_eq] at hin
        have hpool : name ∈ pool := by
          rcases List.mem_cons.mp hin with h0 | h0
          · exact absurd h0 hne
          · exact h0
        obtain ⟨x, hx, hxn⟩ := List.mem_map.mp (show name ∈ ordinarySlots.map Prod.snd from
          hs.pool_mem name hpool)
        obtain ⟨p, n⟩ := x
        have hx1 : (p, name) ∈ ordinarySlots := by rw [← hxn]; exact hx
        obtain ⟨u, hu, -, -, -, -, hflag, -⟩ := shape_newBufferRequested r s rest pool hs p name hx1
        rw [hu] at ht
        cases ht
        exact hflag
    | tabCloseRequested _ index ho ht =>
      right
      obtain ⟨u, j, p, name, hu, -, -, -, -, -, -, -, hflag, -⟩ :=
        shape_bufferCloseRequested s rest pool hs index ho
      rw [hu] at ht
      cases ht
      exact hflag
    | recompile _ ht => exact Or.inr (shape_recompile_some r s t rest pool hs ht).2.2
    | currentChanged index => exact Or.inr rfl
    | edited _ text ht => exact Or.inr (shape_sourceEdited s t rest pool hs text ht).2.2

/-- C10 at a reachable state: the state with Buffer A active. -/
theorem C10_placeholder_and_readiness_witness :
    Reachable demoRenderer demoState ∧
    (newBufferRequested demoRenderer "Add buffer" demoState = some demoState ∧
    (∀ u : ShaderWorkshop, newBufferRequested demoRenderer u.defaultItemName u = some u) ∧
    (init demoRenderer).imageEffectCreated = false ∧
    (∀ n, 1 ≤ n → (paintEvent^[n] (init demoRenderer)).calls =
      (init demoRenderer).calls ++ [.createEffect 0]) ∧
    (demoState.imageEffectCreated = false →
      paintEvent demoState =
        { demoState with
          calls := demoState.calls ++ [.createEffect 0], imageEffectCreated := true }) ∧
    (demoState.imageEffectCreated = true → paintEvent demoState = demoState) ∧
    (paintEvent demoState).imageEffectCreated = true ∧
    (∀ n, 1 ≤ n → paintEvent^[n] demoState = paintEvent demoState) ∧
    (∀ t, Step demoRenderer demoState t →
      t = paintEvent demoState ∨ t.imageEffectCreated = demoState.imageEffectCreated)) :=
  ⟨reachable_demoState,
    C10_placeholder_and_readiness demoRenderer demoState reachable_demoState⟩

end ShaderWorkshop
